import Mathlib

/-!
Verification of the japan_study scraping pipeline (storage.py, client.py,
parser.py, scrape.py) against its natural-language specification.

The Python code is shallowly embedded:
  * Python/JSON dynamic values become the inductive type `JVal`
    (dicts are insertion-ordered association lists, as in CPython);
  * functions that can raise become `Except PyErr`-valued functions;
  * `str.strip` is modelled by `pyStrip` (drop whitespace at both ends);
  * `str(x)` is modelled by `pyStr`/`pyRepr`;
  * the network boundary is an oracle `Nat → NetResult` giving the outcome
    of the k-th attempt; `json.loads` is an oracle `String → Option V`;
  * sleeping, hashing and file I/O are recorded symbolically
    (sleep durations as naturals counting seconds, the SHA-256 fingerprint
    as the exact byte string fed to the hash, cache files as an
    association list from key to raw body).
-/

/-- Dynamic (JSON-like) Python value: None, bool, int, str, list, dict.
Dicts keep insertion order, as CPython dicts do. -/
inductive JVal where
  | jnull
  | jbool (b : Bool)
  | jint (n : Int)
  | jstr (s : String)
  | jarr (xs : List JVal)
  | jobj (fields : List (String × JVal))

mutual
def JVal.beq : JVal → JVal → Bool
  | .jnull, .jnull => true
  | .jbool a, .jbool b => a == b
  | .jint a, .jint b => a == b
  | .jstr a, .jstr b => a == b
  | .jarr a, .jarr b => JVal.beqList a b
  | .jobj a, .jobj b => JVal.beqFields a b
  | _, _ => false

def JVal.beqList : List JVal → List JVal → Bool
  | [], [] => true
  | a :: as, b :: bs => JVal.beq a b && JVal.beqList as bs
  | _, _ => false

def JVal.beqFields : List (String × JVal) → List (String × JVal) → Bool
  | [], [] => true
  | (k, v) :: as, (k', v') :: bs => k == k' && JVal.beq v v' && JVal.beqFields as bs
  | _, _ => false
end

mutual
theorem JVal.beq_iff : ∀ a b : JVal, JVal.beq a b = true ↔ a = b
  | .jnull, b => by cases b <;> simp [JVal.beq]
  | .jbool a, b => by cases b <;> simp [JVal.beq]
  | .jint a, b => by cases b <;> simp [JVal.beq]
  | .jstr a, b => by cases b <;> simp [JVal.beq]
  | .jarr a, b => by
      cases b <;> simp only [JVal.beq] <;> simp only [reduceCtorEq, iff_false,
        Bool.false_eq_true, not_false_eq_true, JVal.jarr.injEq]
      exact JVal.beqList_iff a _
  | .jobj a, b => by
      cases b <;> simp only [JVal.beq] <;> simp only [reduceCtorEq, iff_false,
        Bool.false_eq_true, not_false_eq_true, JVal.jobj.injEq]
      exact JVal.beqFields_iff a _

theorem JVal.beqList_iff : ∀ a b : List JVal, JVal.beqList a b = true ↔ a = b
  | [], b => by cases b <;> simp [JVal.beqList]
  | a :: as, [] => by simp [JVal.beqList]
  | a :: as, b :: bs => by
      simp only [JVal.beqList, Bool.and_eq_true, List.cons.injEq]
      exact and_congr (JVal.beq_iff a b) (JVal.beqList_iff as bs)

theorem JVal.beqFields_iff : ∀ a b : List (String × JVal), JVal.beqFields a b = true ↔ a = b
  | [], b => by cases b <;> simp [JVal.beqFields]
  | a :: as, [] => by simp [JVal.beqFields]
  | (k, v) :: as, (k', v') :: bs => by
      have h1 := JVal.beq_iff v v'
      have h2 := JVal.beqFields_iff as bs
      simp only [JVal.beqFields, Bool.and_eq_true, List.cons.injEq, Prod.mk.injEq, beq_iff_eq]
      rw [h1, h2, and_assoc]
end

instance : DecidableEq JVal := fun a b => decidable_of_iff _ (JVal.beq_iff a b)

def exceptDecEq {ε α : Type} [DecidableEq ε] [DecidableEq α] :
    (a b : Except ε α) → Decidable (a = b)
  | .ok a, .ok b =>
    if h : a = b then .isTrue (h ▸ rfl) else .isFalse (fun hh => h (Except.ok.inj hh))
  | .error a, .error b =>
    if h : a = b then .isTrue (h ▸ rfl) else .isFalse (fun hh => h (Except.error.inj hh))
  | .ok _, .error _ => .isFalse (fun hh => Except.noConfusion hh)
  | .error _, .ok _ => .isFalse (fun hh => Except.noConfusion hh)

instance {ε α : Type} [DecidableEq ε] [DecidableEq α] : DecidableEq (Except ε α) :=
  exceptDecEq

/-- Python exceptions relevant to the embedded code. `ValidationError` is the
project's own exception class; `TypeError`/`AttributeError` are interpreter
errors raised by operations on values of the wrong type. Messages are not
modelled. -/
inductive PyErr where
  | validation
  | typeError
  | attributeError
deriving DecidableEq, Repr

/-- Python `str.strip()` on the character list: drop whitespace from both ends. -/
def stripChars (l : List Char) : List Char :=
  ((l.dropWhile Char.isWhitespace).reverse.dropWhile Char.isWhitespace).reverse

/-- Python `s.strip()`. -/
def pyStrip (s : String) : String :=
  ⟨stripChars s.data⟩

/-- Does the second list occur at the head of the first? -/
def startsWithChars : List Char → List Char → Bool
  | _, [] => true
  | [], _ :: _ => false
  | c :: cs, d :: ds => c == d && startsWithChars cs ds

/-- Python `needle in haystack` on the character lists (substring test). -/
def containsSubChars : List Char → List Char → Bool
  | [], needle => needle.isEmpty
  | l@(_ :: rest), needle => startsWithChars l needle || containsSubChars rest needle

mutual
/-- Python `repr(x)` for JSON-like values (used by `str` inside containers). -/
def pyRepr : JVal → String
  | .jnull => "None"
  | .jbool true => "True"
  | .jbool false => "False"
  | .jint n => toString n
  | .jstr s => "\x27" ++ s ++ "\x27"
  | .jarr xs => "[" ++ String.intercalate ", " (pyReprList xs) ++ "]"
  | .jobj fs => "\x7b" ++ String.intercalate ", " (pyReprFields fs) ++ "\x7d"

def pyReprList : List JVal → List String
  | [] => []
  | x :: xs => pyRepr x :: pyReprList xs

def pyReprFields : List (String × JVal) → List String
  | [] => []
  | (k, v) :: fs => ("\x27" ++ k ++ "\x27: " ++ pyRepr v) :: pyReprFields fs
end

/-- Python `str(x)`: a string is returned unchanged, anything else as `repr`. -/
def pyStr : JVal → String
  | .jstr s => s
  | v => pyRepr v

/-- Python truthiness of a JSON-like value. -/
def truthy : JVal → Bool
  | .jnull => false
  | .jbool b => b
  | .jint n => n ≠ 0
  | .jstr s => s ≠ ""
  | .jarr xs => xs ≠ []
  | .jobj fs => fs ≠ []

/-- Python `isinstance(v, int)` (CPython counts `bool` as `int`). -/
def isInt : JVal → Bool
  | .jint _ => true
  | .jbool _ => true
  | _ => false

/-- Python `isinstance(v, str)`. -/
def isStr : JVal → Bool
  | .jstr _ => true
  | _ => false

/-- Python `isinstance(v, list)`. -/
def isList : JVal → Bool
  | .jarr _ => true
  | _ => false

/-- The integer value of an int-like Python value (`True` counts as 1). -/
def intVal : JVal → Int
  | .jint n => n
  | .jbool true => 1
  | _ => 0

/-- Dict lookup (first occurrence; CPython dicts have unique keys). -/
def dictLookup (fields : List (String × JVal)) (k : String) : Option JVal :=
  (fields.find? (fun p => p.1 = k)).map (·.2)

/-- Dict assignment `d[k] = v`: replace in place when the key exists,
otherwise append (CPython insertion order). -/
def dictSet (fields : List (String × JVal)) (k : String) (v : JVal) : List (String × JVal) :=
  if fields.any (fun p => p.1 = k) then
    fields.map (fun p => if p.1 = k then (k, v) else p)
  else
    fields ++ [(k, v)]

/-- Dict `d.pop(k, None)`: drop the key. -/
def dictPop (fields : List (String × JVal)) (k : String) : List (String × JVal) :=
  fields.filter (fun p => p.1 ≠ k)

/-- Python `k in v` for a string key: membership for dicts and lists,
substring test for strings, `TypeError` otherwise. -/
def pyContains (v : JVal) (k : String) : Except PyErr Bool :=
  match v with
  | .jobj fs => .ok (fs.any (fun p => p.1 = k))
  | .jarr xs => .ok (xs.any (fun x => x = .jstr k))
  | .jstr s => .ok (containsSubChars s.data k.data)
  | _ => .error .typeError

/-- Python `v[k]` for a string key: dict lookup (the callers below only
subscript after a successful membership test, so a missing key is modelled as
`TypeError` together with the non-dict cases). -/
def pySubscript (v : JVal) (k : String) : Except PyErr JVal :=
  match v with
  | .jobj fs =>
    match dictLookup fs k with
    | some x => .ok x
    | none => .error .typeError
  | _ => .error .typeError

/-- Python `v.get(k)`: `None`-defaulting dict access; `AttributeError` on
non-dicts. -/
def pyGet (v : JVal) (k : String) : Except PyErr JVal :=
  match v with
  | .jobj fs =>
    match dictLookup fs k with
    | some x => .ok x
    | none => .ok .jnull
  | _ => .error .attributeError

example : pyStrip "  a b " = "a b" := rfl
example : pyRepr (.jarr [.jint 1, .jstr "a"]) = "[1, \x27a\x27]" := rfl
example : pyStr (.jint (-5)) = "-5" := rfl
example : (JVal.jarr [.jint 3] ≠ JVal.jarr [.jint 4]) := by decide

/-! ## storage.py -/

/-- Required record keys, from `validate_question` in storage.py. -/
def qRequired : List String :=
  ["id", "category", "year", "text", "choices", "answerIndex", "explanation", "sourceUrl"]

/-- The list comprehension `[key for key in required if key not in q]`. -/
def missingKeys (q : JVal) : List String → Except PyErr (List String)
  | [] => .ok []
  | k :: ks =>
    match pyContains q k with
    | .error e => .error e
    | .ok c =>
      match missingKeys q ks with
      | .error e => .error e
      | .ok rest => .ok (if c then rest else k :: rest)

/-- Elements of a Python list value (callers only use it under an
`isinstance(v, list)` guard). -/
def jElems : JVal → List JVal
  | .jarr xs => xs
  | _ => []

/-- storage.validate_question. Each raise becomes `.error`; a `TypeError` from
a membership test on a non-iterable `q` propagates. -/
def validate_question (q : JVal) : Except PyErr Unit :=
  match missingKeys q qRequired with
  | .error e => .error e
  | .ok missing =>
  if missing ≠ [] then .error .validation
  else match pySubscript q "year" with
  | .error e => .error e
  | .ok year =>
  if isInt year = false then .error .validation
  else match pySubscript q "choices" with
  | .error e => .error e
  | .ok choices =>
  if !(isList choices) || !(truthy choices) then .error .validation
  else if (jElems choices).any (fun c => c == JVal.jnull || pyStrip (pyStr c) == "") then
    .error .validation
  else match pySubscript q "answerIndex" with
  | .error e => .error e
  | .ok ai =>
  if isInt ai = false then .error .validation
  else if ¬ (0 ≤ intVal ai ∧ intVal ai < ((jElems choices).length : Int)) then .error .validation
  else .ok ()

/-- The `for q in seed["questions"]: validate_question(q)` loop. -/
def validateQuestionList : List JVal → Except PyErr Unit
  | [] => .ok ()
  | q :: qs =>
    match validate_question q with
    | .error e => .error e
    | .ok _ => validateQuestionList qs

/-- The `generatedAt` check of validate_seed: raise when present, non-None and
not a string. -/
def checkGeneratedAt (seed : JVal) : Except PyErr Unit :=
  match pyContains seed "generatedAt" with
  | .error e => .error e
  | .ok hasG =>
    if hasG then
      match pySubscript seed "generatedAt" with
      | .error e => .error e
      | .ok g => if g ≠ .jnull ∧ isStr g = false then .error .validation else .ok ()
    else .ok ()

/-- The `sourceSessions` check of validate_seed: raise when present, non-None
and not a list of strings. -/
def checkSourceSessions (seed : JVal) : Except PyErr Unit :=
  match pyContains seed "sourceSessions" with
  | .error e => .error e
  | .ok hasS =>
    if hasS then
      match pySubscript seed "sourceSessions" with
      | .error e => .error e
      | .ok s =>
        if s ≠ .jnull ∧ (isList s = false ∨ (jElems s).all isStr = false) then .error .validation
        else .ok ()
    else .ok ()

/-- storage.validate_seed. -/
def validate_seed (seed : JVal) : Except PyErr Unit :=
  match pyContains seed "questions" with
  | .error e => .error e
  | .ok hasQ =>
  if hasQ = false then .error .validation
  else match pySubscript seed "questions" with
  | .error e => .error e
  | .ok qs =>
  if isList qs = false then .error .validation
  else match checkGeneratedAt seed with
  | .error e => .error e
  | .ok _ =>
  match checkSourceSessions seed with
  | .error e => .error e
  | .ok _ => validateQuestionList (jElems qs)

/-- The id string collected for a dropped question in `repair_seed`:
`str(qid) if qid else "<missing id>"` with `qid = q.get("id") if isinstance(q, dict) else None`. -/
def repairQid (q : JVal) : String :=
  match q with
  | .jobj fs =>
    match dictLookup fs "id" with
    | some v => if truthy v then pyStr v else "<missing id>"
    | none => "<missing id>"
  | _ => "<missing id>"

/-- The question loop of `repair_seed`; only `ValidationError` is caught,
any other exception (e.g. `TypeError`) propagates. -/
def repairLoop : List JVal → Except PyErr (List JVal × List String)
  | [] => .ok ([], [])
  | q :: qs =>
    match validate_question q with
    | .ok _ =>
      match repairLoop qs with
      | .error e => .error e
      | .ok (vs, ids) => .ok (q :: vs, ids)
    | .error .validation =>
      match repairLoop qs with
      | .error e => .error e
      | .ok (vs, ids) => .ok (vs, repairQid q :: ids)
    | .error e => .error e

/-- The `generatedAt` normalization of `repair_seed`: pop the key when its
value is present, non-None and not a string. -/
def dropBadGeneratedAt (r : List (String × JVal)) : List (String × JVal) :=
  match dictLookup r "generatedAt" with
  | some v => if v ≠ .jnull ∧ isStr v = false then dictPop r "generatedAt" else r
  | none => r

/-- The `sourceSessions` normalization of `repair_seed`. -/
def dropBadSourceSessions (r : List (String × JVal)) : List (String × JVal) :=
  match dictLookup r "sourceSessions" with
  | some v =>
    if v ≠ .jnull ∧ (isList v = false ∨ (jElems v).all isStr = false) then
      dictPop r "sourceSessions"
    else r
  | none => r

/-- The `version` normalization of `repair_seed`
(`repaired.get("version", 1)` defaults to an int, so a missing key is kept). -/
def fixVersion (r : List (String × JVal)) : List (String × JVal) :=
  match dictLookup r "version" with
  | some v => if isInt v = false then dictSet r "version" (.jint 1) else r
  | none => r

/-- The tail of `repair_seed` on `repaired = dict(seed)`: install the valid
questions, drop ill-typed `generatedAt`/`sourceSessions`, normalize `version`. -/
def repairMeta (fields : List (String × JVal)) (valid : List JVal) : List (String × JVal) :=
  fixVersion (dropBadSourceSessions (dropBadGeneratedAt
    (dictSet fields "questions" (.jarr valid))))

/-- storage.repair_seed. `seed.get("questions", [])` is forced to a list, each
question is validated with only `ValidationError` caught, then metadata fields
are normalized. -/
def repair_seed (seed : JVal) : Except PyErr (JVal × List String) :=
  match seed with
  | .jobj fields =>
    match repairLoop (jElems (match dictLookup fields "questions" with
                              | some v => v
                              | none => .jarr [])) with
    | .error e => .error e
    | .ok (valid, invalidIds) => .ok (.jobj (repairMeta fields valid), invalidIds)
  | _ => .ok (.jobj [("version", .jint 1), ("questions", .jarr [])], ["<invalid seed>"])

/-- storage.QuestionStore's mutable state (fields not touched by the claims —
output path, the resumed seed metadata, per-year sequence counters — are
omitted). `by_id` is the insertion-ordered dict `self._by_id`. -/
structure QuestionStore where
  by_id : List (String × JVal) := []
  prefer_new : Bool := false
  added : Nat := 0
  replaced : Nat := 0
  skipped : Nat := 0
deriving DecidableEq

/-- storage.QuestionStore.add_question: a non-string or blank id raises
`ValidationError`; a known (stripped) id is replaced when `prefer_new` else
skipped; a new id is appended. -/
def add_question (store : QuestionStore) (q : JVal) : Except PyErr (Bool × QuestionStore) :=
  match pyGet q "id" with
  | .error e => .error e
  | .ok (.jstr s) =>
    if pyStrip s = "" then .error .validation
    else
      let qid := pyStrip s
      if store.by_id.any (fun p => p.1 = qid) then
        if store.prefer_new then
          .ok (true, { store with by_id := dictSet store.by_id qid q,
                                  replaced := store.replaced + 1 })
        else
          .ok (false, { store with skipped := store.skipped + 1 })
      else
        .ok (true, { store with by_id := store.by_id ++ [(qid, q)],
                                added := store.added + 1 })
  | .ok _ => .error .validation

/-- storage.QuestionStore.all_questions: `list(self._by_id.values())`. -/
def all_questions (store : QuestionStore) : List JVal :=
  store.by_id.map (·.2)

/-- Python dict assignment for dict-valued keys (`merged[q["id"]] = q`;
record ids may be any hashable value, so keys are `JVal`). -/
def jdictInsert (m : List (JVal × JVal)) (k : JVal) (v : JVal) : List (JVal × JVal) :=
  if m.any (fun p => p.1 = k) then m.map (fun p => if p.1 = k then (k, v) else p)
  else m ++ [(k, v)]

/-- The dict comprehension `{q["id"]: q for q in existing}` (accumulator form). -/
def buildByIdGo : List JVal → List (JVal × JVal) → Except PyErr (List (JVal × JVal))
  | [], m => .ok m
  | q :: qs, m =>
    match pySubscript q "id" with
    | .error e => .error e
    | .ok k => buildByIdGo qs (jdictInsert m k q)

/-- The `for q in incoming` loop of `merge_questions`, carrying
`(merged, added, replaced)`. -/
def mergeLoopGo : List JVal → Bool → List (JVal × JVal) → Nat → Nat →
    Except PyErr (List (JVal × JVal) × Nat × Nat)
  | [], _, m, a, r => .ok (m, a, r)
  | q :: qs, pn, m, a, r =>
    match pySubscript q "id" with
    | .error e => .error e
    | .ok k =>
      if m.any (fun p => p.1 = k) then
        if pn then mergeLoopGo qs pn (jdictInsert m k q) a (r + 1)
        else mergeLoopGo qs pn m a r
      else
        mergeLoopGo qs pn (jdictInsert m k q) (a + 1) r

/-- storage.merge_questions. -/
def merge_questions (existing incoming : List JVal) (prefer_new : Bool) :
    Except PyErr (List JVal × Nat × Nat) :=
  match buildByIdGo existing [] with
  | .error e => .error e
  | .ok m =>
    match mergeLoopGo incoming prefer_new m 0 0 with
    | .error e => .error e
    | .ok (m2, added, replaced) => .ok (m2.map (·.2), added, replaced)

/-! ## client.py -/

/-- client.RequestConfig. `data` is the urlencoded form body (scrape.py passes
a list of pairs), `json_body`/`params` are dicts. -/
structure RequestConfig where
  url : String
  method : String := "GET"
  data : Option (List (String × String)) := none
  json_body : Option (List (String × JVal)) := none
  params : Option (List (String × JVal)) := none
  headers : Option (List (String × String)) := none
  cache_key : Option String := none
  return_response : Bool := false
deriving DecidableEq

/-- Sort rendered object entries by key, as `json.dumps(..., sort_keys=True)`
does at every object level. -/
def sortRendered (fs : List (String × String)) : List (String × String) :=
  List.insertionSort (fun a b => a.1 ≤ b.1) fs

mutual
/-- Python `json.dumps(v, sort_keys=True)`. Object members are rendered
recursively and then ordered by key; string escaping is not modelled (the
strings appearing in the claims need none). -/
def jsonDumps : JVal → String
  | .jnull => "null"
  | .jbool true => "true"
  | .jbool false => "false"
  | .jint n => toString n
  | .jstr s => "\"" ++ s ++ "\""
  | .jarr xs => "[" ++ String.intercalate ", " (jsonDumpsList xs) ++ "]"
  | .jobj fs =>
    "\x7b" ++ String.intercalate ", "
      ((sortRendered (jsonDumpsFields fs)).map (fun p => "\"" ++ p.1 ++ "\": " ++ p.2))
      ++ "\x7d"

def jsonDumpsList : List JVal → List String
  | [] => []
  | x :: xs => jsonDumps x :: jsonDumpsList xs

def jsonDumpsFields : List (String × JVal) → List (String × String)
  | [] => []
  | (k, v) :: fs => (k, jsonDumps v) :: jsonDumpsFields fs
end

/-- client.HttpClient._hash_key, idealizing SHA-256 as injective: the model
returns the exact byte string fed to `h.update` (url, then the sorted-key dump
of `params` when truthy, then of `json_body` when truthy) instead of its
digest. Two configs get the same model key iff the real code feeds identical
bytes to the hash (collisions of SHA-256 itself aside). -/
def hash_key (cfg : RequestConfig) : String :=
  cfg.url
    ++ (match cfg.params with
        | some ps => if ps ≠ [] then jsonDumps (.jobj ps) else ""
        | none => "")
    ++ (match cfg.json_body with
        | some ps => if ps ≠ [] then jsonDumps (.jobj ps) else ""
        | none => "")

/-- client.HttpClient._cache_path: `config.cache_key or self._hash_key(config)`
(Python `or`, so an empty explicit key falls back to the hash), plus the
`.cache` file suffix. The cache directory prefix is constant and omitted. -/
def cache_path (cfg : RequestConfig) : String :=
  (match cfg.cache_key with
   | some s => if s ≠ "" then s else hash_key cfg
   | none => hash_key cfg) ++ ".cache"

/-- An HTTP response as the retry loop sees it. -/
structure Response where
  status : Nat
  contentType : String := ""
  body : String := ""
deriving DecidableEq

/-- What the network does on one attempt: a response, or a requests-level
timeout / connection error. -/
inductive NetResult where
  | resp (r : Response)
  | timeout
  | connError
deriving DecidableEq

/-- The exceptions that can leave `_request_with_retry`. -/
inductive Failure where
  | timeout
  | connError
  | temporary (status : Nat)
  | httpError (status : Nat)
deriving DecidableEq

/-- Classification of one attempt inside `_request_with_retry`: HTTP 429/5xx
raise `TemporaryError` (caught, retried); `raise_for_status` raises for the
remaining 4xx (uncaught, propagates); timeouts and connection errors are
caught; anything else returns the response. -/
inductive AttemptResult where
  | ok (r : Response)
  | caught (f : Failure)
  | uncaught (f : Failure)
deriving DecidableEq

def classifyAttempt : NetResult → AttemptResult
  | .timeout => .caught .timeout
  | .connError => .caught .connError
  | .resp r =>
    if r.status = 429 ∨ (500 ≤ r.status ∧ r.status < 600) then .caught (.temporary r.status)
    else if 400 ≤ r.status ∧ r.status < 600 then .uncaught (.httpError r.status)
    else .ok r

/-- Outcome of `_request_with_retry`: the returned response or the raised
exception, the number of attempts issued, and the seconds slept between
attempts (`backoff` starts at 1.0 and doubles; modelled as naturals since all
values are powers of two). -/
structure RetryTrace where
  outcome : Except Failure Response
  attempts : Nat
  sleeps : List Nat
deriving DecidableEq

/-- The `while True` loop of `_request_with_retry`. `attempt` is the 1-based
attempt about to be issued, `rem = max_retries - attempt` the retries left
(the caught branch re-raises when `attempt >= max_retries`). -/
def retryGo (net : Nat → NetResult) (backoff attempt : Nat) : Nat → RetryTrace
  | 0 =>
    match classifyAttempt (net attempt) with
    | .ok r => ⟨.ok r, attempt, []⟩
    | .uncaught f => ⟨.error f, attempt, []⟩
    | .caught f => ⟨.error f, attempt, []⟩
  | rem + 1 =>
    match classifyAttempt (net attempt) with
    | .ok r => ⟨.ok r, attempt, []⟩
    | .uncaught f => ⟨.error f, attempt, []⟩
    | .caught _ =>
      let t := retryGo net (backoff * 2) (attempt + 1) rem
      ⟨t.outcome, t.attempts, backoff :: t.sleeps⟩

/-- client.HttpClient._request_with_retry, driven by the attempt oracle `net`. -/
def requestWithRetry (net : Nat → NetResult) (max_retries : Nat) : RetryTrace :=
  retryGo net 1 1 (max_retries - 1)

/-- Decoded content: parsed structured data or plain text. -/
inductive Decoded (V : Type) where
  | jval (v : V)
  | text (s : String)
deriving DecidableEq

/-- client.HttpClient._decode_cached: try `json.loads` (the oracle `parse`),
fall back to text. Byte decoding is the identity on our string model of bytes. -/
def decode_cached {V : Type} (parse : String → Option V) (data : String) : Decoded V :=
  match parse data with
  | some v => .jval v
  | none => .text data

/-- Python `needle in haystack` on strings. -/
def strContains (haystack needle : String) : Bool :=
  containsSubChars haystack.data needle.data

/-- client.HttpClient._decode_response: `resp.json()` when the Content-Type
header mentions application/json (raising when the body is not JSON),
`resp.text` otherwise. -/
def decode_response {V : Type} (parse : String → Option V) (resp : Response) :
    Except Unit (Decoded V) :=
  if strContains resp.contentType "application/json" then
    match parse resp.body with
    | some v => .ok (.jval v)
    | none => .error ()
  else
    .ok (.text resp.body)

def cacheLookup (cache : List (String × String)) (k : String) : Option String :=
  (cache.find? (fun p => p.1 = k)).map (·.2)

def cacheWrite (cache : List (String × String)) (k : String) (v : String) :
    List (String × String) :=
  if cache.any (fun p => p.1 = k) then
    cache.map (fun p => if p.1 = k then (k, v) else p)
  else
    cache ++ [(k, v)]

/-- The client configuration fields the claims depend on. -/
structure HttpClient where
  cache_enabled : Bool := true
  max_retries : Nat := 5
deriving DecidableEq

/-- Errors leaving `fetch`: a network failure after retries, or a decode
failure from `resp.json()`. -/
inductive FetchErr where
  | net (f : Failure)
  | decode
deriving DecidableEq

/-- The observable effect of one `fetch` call: its result, the cache contents
afterwards, how many network attempts were issued, and whether `_throttle` ran
(the cached branch returns before it). When `return_response` is set the code
wraps the content as `(status, content, request-body)` — with `None` for the
body on a cache hit — which changes only the packaging, not the content, and
is left out of the model. -/
structure FetchResult (V : Type) where
  outcome : Except FetchErr (Decoded V)
  cache : List (String × String)
  networkCalls : Nat
  throttled : Bool

/-- The cache-miss path of client.HttpClient.fetch: throttle, request with
retry, write the raw body to the cache file (when caching), decode. -/
def fetchNetwork {V : Type} (parse : String → Option V) (client : HttpClient)
    (net : Nat → NetResult) (cache : List (String × String)) (cpath : Option String) :
    FetchResult V :=
  let t := requestWithRetry net client.max_retries
  match t.outcome with
  | .error f => ⟨.error (.net f), cache, t.attempts, true⟩
  | .ok resp =>
    let cache' := match cpath with
      | some key => cacheWrite cache key resp.body
      | none => cache
    match decode_response parse resp with
    | .ok d => ⟨.ok d, cache', t.attempts, true⟩
    | .error _ => ⟨.error .decode, cache', t.attempts, true⟩

/-- client.HttpClient.fetch. -/
def fetch {V : Type} (parse : String → Option V) (client : HttpClient)
    (net : Nat → NetResult) (cache : List (String × String)) (cfg : RequestConfig) :
    FetchResult V :=
  if client.cache_enabled then
    let key := cache_path cfg
    match cacheLookup cache key with
    | some bytes => ⟨.ok (decode_cached parse bytes), cache, 0, false⟩
    | none => fetchNetwork parse client net cache (some key)
  else
    fetchNetwork parse client net cache none

/-! ## scrape.py (session walker) -/

/-- The carry set of hidden tokens threaded between steps
(`q_param`, `r_param`, `c_param`, `result_value` in scrape_session). -/
structure Carry where
  q : String := ""
  r : String := ""
  c : String := ""
  result : String := "0"
deriving DecidableEq

/-- A response page as the step loop reads it: whether it contains the
one-based next-step marker for the current step index, and the hidden form
inputs. The raw HTML and the extracted records are outside the walker claims. -/
structure PageDoc where
  hasMarker : Bool
  hq : Option String := none
  hr : Option String := none
  hc : Option String := none
  hres : Option String := none
deriving DecidableEq

/-- scrape.parse_hidden_params: read `_q`, `_r`, `_c` (default "") and
`result` (default "-1") from the page. -/
def parse_hidden_params (p : PageDoc) : Carry :=
  ⟨p.hq.getD "", p.hr.getD "", p.hc.getD "", p.hres.getD "-1"⟩

/-- What one step of the walker did: the carry set left for the next step,
the (attempt index, carry sent) pairs of the requests issued, and the attempt
(if any) whose response contained the marker. -/
structure StepResult where
  carry : Carry
  fetches : List (Nat × Carry)
  advancedAt : Option Nat
deriving DecidableEq

/-- The `while attempts < 3` loop of scrape_session for one step.
`page a k` is the response to attempt `a` issued with carry `k`;
`rem = 3 - attempts`. On a marker hit the hidden params are extracted and
`result_value` is forced to "0"; otherwise the loop retries with the same
carry and gives up after the third attempt, leaving the carry unchanged. -/
def stepGo (page : Nat → Carry → PageDoc) (carry : Carry) (attempts : Nat) :
    Nat → StepResult
  | 0 => ⟨carry, [], none⟩
  | rem + 1 =>
    let doc := page attempts carry
    if doc.hasMarker then
      ⟨{ parse_hidden_params doc with result := "0" }, [(attempts, carry)], some attempts⟩
    else
      let t := stepGo page carry (attempts + 1) rem
      ⟨t.carry, (attempts, carry) :: t.fetches, t.advancedAt⟩

/-- One full step of scrape_session at a fixed step index. -/
def runStep (page : Nat → Carry → PageDoc) (carry : Carry) : StepResult :=
  stepGo page carry 0 3

/-- The `for idx in range(max_qno)` loop of scrape_session, from step `idx`
with `n` steps left. `pages i a k` is the response for step `i`, attempt `a`,
carry `k`. A stalled step only logs a warning; the walk always continues. -/
def walkFrom (pages : Nat → Nat → Carry → PageDoc) (idx : Nat) (carry : Carry) :
    Nat → List StepResult
  | 0 => []
  | n + 1 =>
    let st := runStep (pages idx) carry
    st :: walkFrom pages (idx + 1) st.carry n

/-- scrape.scrape_session's step loop: all `max_qno` steps, starting from the
initial carry set `("", "", "", "0")`. -/
def scrape_session_walk (pages : Nat → Nat → Carry → PageDoc) (max_qno : Nat) :
    List StepResult :=
  walkFrom pages 0 ⟨"", "", "", "0"⟩ max_qno

/-! ## parser.py -/

/-- The `for idx, choice in enumerate(choices)` loop of parser._sanitize_choices:
state is `(cleaned, new_answer_index)`, `idx` the running index. A blank choice
is skipped; a kept choice matching `answer_index` records `len(cleaned)` before
being appended. -/
def sanitizeLoop (answer_index : Int) :
    List String → Nat → List String → Option Nat → List String × Option Nat
  | [], _, cleaned, nai => (cleaned, nai)
  | choice :: rest, idx, cleaned, nai =>
    let trimmed := pyStrip choice
    if trimmed = "" then sanitizeLoop answer_index rest (idx + 1) cleaned nai
    else
      let nai' := if (idx : Int) = answer_index then some cleaned.length else nai
      sanitizeLoop answer_index rest (idx + 1) (cleaned ++ [trimmed]) nai'

/-- parser._sanitize_choices: `None` becomes -1. -/
def sanitize_choices (choices : List String) (answer_index : Int) : List String × Int :=
  match sanitizeLoop answer_index choices 0 [] none with
  | (cleaned, none) => (cleaned, -1)
  | (cleaned, some j) => (cleaned, (j : Int))

example : sanitize_choices ["a", " ", "b"] 2 = (["a", "b"], 1) := rfl
example : sanitize_choices ["a", " ", "b"] 1 = (["a", "b"], -1) := rfl
example : sanitize_choices ["a", "b"] (-1) = (["a", "b"], -1) := rfl

/-! ## Dict helper lemmas -/

theorem mapReplace_self (m : List (String × JVal)) (k : String) (v : JVal)
    (hm : ∀ p ∈ m, p.1 ≠ k) :
    m.map (fun p => if p.1 = k then (k, v) else p) = m := by
  induction m with
  | nil => rfl
  | cons p t ih =>
    simp only [List.map_cons]
    rw [if_neg (hm p (by simp)), ih (fun p' hp' => hm p' (List.mem_cons_of_mem _ hp'))]

theorem dictSet_any (m : List (String × JVal)) (k : String) (v : JVal) :
    (dictSet m k v).any (fun p => p.1 = k) = true := by
  unfold dictSet
  by_cases h : (m.any fun p => decide (p.1 = k)) = true
  · rw [if_pos h]
    obtain ⟨p, hp, hpk⟩ := List.any_eq_true.mp h
    exact List.any_eq_true.mpr
      ⟨(k, v), List.mem_map.mpr ⟨p, hp, by simp [of_decide_eq_true hpk]⟩, by simp⟩
  · rw [if_neg h]
    simp [List.any_append]

theorem dictSet_idem (m : List (String × JVal)) (k : String) (v : JVal) :
    dictSet (dictSet m k v) k v = dictSet m k v := by
  by_cases h : (m.any fun p => decide (p.1 = k)) = true
  · have e1 : dictSet m k v = m.map (fun p => if p.1 = k then (k, v) else p) := by
      unfold dictSet; rw [if_pos h]
    have h2 : ((m.map (fun p => if p.1 = k then (k, v) else p)).any
        fun p => decide (p.1 = k)) = true := by
      obtain ⟨p, hp, hpk⟩ := List.any_eq_true.mp h
      exact List.any_eq_true.mpr
        ⟨(k, v), List.mem_map.mpr ⟨p, hp, by simp [of_decide_eq_true hpk]⟩, by simp⟩
    rw [e1]
    unfold dictSet
    rw [if_pos h2, List.map_map]
    refine List.map_congr_left (fun p _ => ?_)
    by_cases hp : p.1 = k <;> simp [hp, Function.comp]
  · have e1 : dictSet m k v = m ++ [(k, v)] := by
      unfold dictSet; rw [if_neg h]
    have h2 : ((m ++ [(k, v)]).any fun p => decide (p.1 = k)) = true := by
      simp [List.any_append]
    rw [e1]
    unfold dictSet
    rw [if_pos h2, List.map_append]
    have hm : ∀ p ∈ m, p.1 ≠ k := by
      intro p hp hk
      exact h (List.any_eq_true.mpr ⟨p, hp, by simp [hk]⟩)
    rw [mapReplace_self m k v hm]
    simp

/-! ## Claim C2 -/

/-- Fresh store, default configuration (`prefer_new = False`). -/
def c2Store : QuestionStore := {}

/-- First record. -/
def c2q1 : JVal :=
  .jobj [("id", .jstr "a"), ("text", .jstr "t"), ("choices", .jarr [.jstr "x", .jstr "y"])]

/-- Second record: different id, identical `text` and `choices`. -/
def c2q2 : JVal :=
  .jobj [("id", .jstr "b"), ("text", .jstr "t"), ("choices", .jarr [.jstr "x", .jstr "y"])]

/-- Claim C2 (code_bug): `QuestionStore.add_question` deduplicates by id only —
storage.py computes no content fingerprint — so two records with different ids
but identical `text`+`choices` are BOTH accepted: both adds return True,
`added` ends at 2 and `all_questions` holds both records, contrary to the
claimed "exactly one accepted record" (and to the scrape.py docstring
"skips already-scraped questions by id/content hash"). -/
theorem C2_content_dedup_missing :
    ((add_question c2Store c2q1).bind fun r1 =>
      (add_question r1.2 c2q2).map fun r2 => (r1.1, r2.1, all_questions r2.2, r2.2.added))
    = .ok (true, true, [c2q1, c2q2], 2) := by
  rfl

/-! ## Claim C8 -/

/-- Claim C8 (confirmed): adding the same record twice leaves `all_questions`
unchanged after the second add, whatever the store state and configuration.
The second add either skips (`prefer_new = False`) or replaces the entry with
an identical one in place (`prefer_new = True`). -/
theorem C8_idempotent_add (store : QuestionStore) (q : JVal) (b1 b2 : Bool)
    (s1 s2 : QuestionStore)
    (h1 : add_question store q = .ok (b1, s1))
    (h2 : add_question s1 q = .ok (b2, s2)) :
    all_questions s2 = all_questions s1 := by
  unfold add_question at h1 h2
  split at h1
  · cases h1
  case h_3 => cases h1
  case h_2 s heq =>
    rw [heq] at h2
    simp only at h2
    by_cases hs : pyStrip s = ""
    · rw [if_pos hs] at h1; cases h1
    · rw [if_neg hs] at h1 h2
      by_cases hmem : (store.by_id.any fun p => decide (p.1 = pyStrip s)) = true
      · rw [if_pos hmem] at h1
        by_cases hpn : store.prefer_new = true
        · rw [if_pos hpn] at h1
          cases h1
          have hmem1 : (((dictSet store.by_id (pyStrip s) q)).any
              fun p => decide (p.1 = pyStrip s)) = true := dictSet_any _ _ _
          rw [if_pos hmem1, if_pos hpn] at h2
          cases h2
          simp only [all_questions]
          rw [dictSet_idem]
        · rw [if_neg hpn] at h1
          cases h1
          rw [if_pos hmem, if_neg hpn] at h2
          cases h2
          rfl
      · rw [if_neg hmem] at h1
        cases h1
        have hmem1 : ((store.by_id ++ [(pyStrip s, q)]).any
            fun p => decide (p.1 = pyStrip s)) = true := by
          simp [List.any_append]
        rw [if_pos hmem1] at h2
        by_cases hpn : store.prefer_new = true
        · rw [if_pos hpn] at h2
          cases h2
          simp only [all_questions]
          have hrepl : dictSet (store.by_id ++ [(pyStrip s, q)]) (pyStrip s) q
              = store.by_id ++ [(pyStrip s, q)] := by
            unfold dictSet
            rw [if_pos hmem1, List.map_append]
            have hm : ∀ p ∈ store.by_id, p.1 ≠ pyStrip s := by
              intro p hp hk
              exact hmem (List.any_eq_true.mpr ⟨p, hp, by simp [hk]⟩)
            rw [mapReplace_self _ _ _ hm]
            simp
          rw [hrepl]
        · rw [if_neg hpn] at h2
          cases h2
          rfl

/-- The store after adding c2q1 once, and after adding it twice. -/
def c8s1 : QuestionStore := { by_id := [("a", c2q1)], added := 1 }

def c8s2 : QuestionStore := { by_id := [("a", c2q1)], added := 1, skipped := 1 }

/-- Witness for C8 at a concrete store and record. -/
theorem C8_idempotent_add_witness :
    add_question c2Store c2q1 = .ok (true, c8s1) ∧
    add_question c8s1 c2q1 = .ok (false, c8s2) ∧
    all_questions c8s2 = all_questions c8s1 := by
  exact ⟨rfl, rfl, C8_idempotent_add c2Store c2q1 true false c8s1 c8s2 rfl rfl⟩

/-! ## Claim C1 -/

/-- A record with all eight required fields present, string fields everywhere
except the integer `year` and `answerIndex`, and string choices. -/
def mkRecord (idv cat : String) (year : Int) (text : String) (choices : List String)
    (ai : Int) (expl src : String) : JVal :=
  .jobj [("id", .jstr idv), ("category", .jstr cat), ("year", .jint year),
         ("text", .jstr text), ("choices", .jarr (choices.map .jstr)),
         ("answerIndex", .jint ai), ("explanation", .jstr expl), ("sourceUrl", .jstr src)]

theorem nonBlank_any_false (choices : List String)
    (hblank : ∀ c ∈ choices, pyStrip c ≠ "") :
    ((choices.map JVal.jstr).any
      (fun c => c == JVal.jnull || pyStrip (pyStr c) == "")) = false := by
  induction choices with
  | nil => rfl
  | cons c cs ih =>
    have h1 : (JVal.jstr c == JVal.jnull) = false := rfl
    have h2 : (pyStrip (pyStr (JVal.jstr c)) == "") = false := by
      have : pyStr (JVal.jstr c) = c := rfl
      rw [this]
      exact beq_eq_false_iff_ne.mpr (hblank c (by simp))
    simp only [List.map_cons, List.any_cons, h1, h2, Bool.or_self, Bool.false_or]
    exact ih (fun x hx => hblank x (List.mem_cons_of_mem _ hx))

/-- Claim C1, counterexample: a record with every required field present,
a one-element non-blank choice list and `answerIndex = -1` FAILS validation
(`validate_question` demands `0 <= answerIndex < len(choices)`), contradicting
the claimed "passes when answerIndex = -1". -/
theorem C1_minus_one_rejected :
    validate_question (mkRecord "x" "c" 2024 "t" ["a"] (-1) "e" "u")
      = .error .validation := by
  rfl

/-- Claim C1 as amended: for a record with all required fields present,
an integer year, and string choices none of which is blank, validation
succeeds exactly when the choice list is non-empty and
`0 <= answerIndex < len(choices)`. In particular `answerIndex = len(choices)`
fails, `choices = []` fails, and `answerIndex = -1` also fails. -/
theorem C1_validate_question_index_boundary
    (idv cat text expl src : String) (year : Int) (choices : List String) (ai : Int)
    (hblank : ∀ c ∈ choices, pyStrip c ≠ "") :
    validate_question (mkRecord idv cat year text choices ai expl src) = .ok ()
      ↔ choices ≠ [] ∧ 0 ≤ ai ∧ ai < (choices.length : Int) := by
  have hany := nonBlank_any_false choices hblank
  cases choices with
  | nil =>
    simp [validate_question, mkRecord, qRequired, missingKeys, pyContains, pySubscript,
          dictLookup, jElems, isList, isInt, truthy, intVal]
  | cons c cs =>
    simp only [validate_question, mkRecord, qRequired, missingKeys, pyContains, pySubscript,
          dictLookup, jElems, isList, isInt, truthy, intVal] at *
    simp [hany, List.length_map]
    have hb : ¬ (pyStrip (pyStr (JVal.jstr c)) = "" ∨
        ∃ a ∈ cs, pyStrip (pyStr (JVal.jstr a)) = "") := by
      push_neg
      exact ⟨hblank c (by simp), fun a ha => hblank a (by simp [ha])⟩
    rw [if_neg hb]
    constructor
    · intro hok
      split_ifs at hok with h2
      omega
    · intro hrange
      have hcond : ¬ (0 ≤ ai → (cs.length : Int) + 1 ≤ ai) := by omega
      rw [if_neg hcond]

/-- Witness for the amended theorem of C1 at a concrete record: two non-blank
choices accept index 1 and reject index 2. -/
theorem C1_validate_question_index_boundary_witness :
    validate_question (mkRecord "x" "c" 2024 "t" ["a", "b"] 1 "e" "u") = .ok ()
    ∧ validate_question (mkRecord "x" "c" 2024 "t" ["a", "b"] 2 "e" "u") ≠ .ok () := by
  constructor
  · exact (C1_validate_question_index_boundary "x" "c" "t" "e" "u" 2024 ["a", "b"] 1
      (by intro c hc; fin_cases hc <;> decide)).mpr (by decide)
  · intro h
    have := (C1_validate_question_index_boundary "x" "c" "t" "e" "u" 2024 ["a", "b"] 2
      (by intro c hc; fin_cases hc <;> decide)).mp h
    exact absurd this.2.2 (by decide)

/-! ## Claim C9 -/

theorem dropWhile_cons_head {p : Char → Bool} :
    ∀ {l : List Char} {x : Char} {t : List Char}, l.dropWhile p = x :: t → p x = false := by
  intro l
  induction l with
  | nil => intro x t h; cases h
  | cons a l' ih =>
    intro x t h
    rw [List.dropWhile_cons] at h
    by_cases ha : p a = true
    · rw [if_pos ha] at h
      exact ih h
    · rw [if_neg ha] at h
      cases h
      exact Bool.not_eq_true _ ▸ Bool.of_not_eq_true ha

theorem mem_dropWhile_of_mem {p : Char → Bool} {l : List Char} {x : Char}
    (hx : x ∈ l) (hpx : p x = false) : x ∈ l.dropWhile p := by
  induction l with
  | nil => cases hx
  | cons a t ih =>
    rw [List.dropWhile_cons]
    by_cases ha : p a = true
    · rw [if_pos ha]
      rcases List.mem_cons.mp hx with h | h
      · subst h; rw [hpx] at ha; cases ha
      · exact ih h
    · rw [if_neg ha]
      exact hx

/-- A non-empty stripped string is not whitespace-only. -/
theorem stripChars_not_all_ws (l : List Char) (hne : stripChars l ≠ []) :
    (stripChars l).all Char.isWhitespace = false := by
  by_contra hall
  rw [Bool.not_eq_false] at hall
  cases hdw : l.dropWhile Char.isWhitespace with
  | nil =>
    apply hne
    unfold stripChars
    rw [hdw]
    rfl
  | cons x t =>
    have hx : Char.isWhitespace x = false := dropWhile_cons_head hdw
    have hxmem : x ∈ stripChars l := by
      unfold stripChars
      rw [hdw]
      exact List.mem_reverse.mpr
        (mem_dropWhile_of_mem (List.mem_reverse.mpr (by simp)) hx)
    rw [List.all_eq_true] at hall
    rw [hall x hxmem] at hx
    cases hx

/-- Every entry of the cleaned list is a stripped, non-empty string. -/
theorem sanitizeLoop_entries (ai : Int) :
    ∀ (rest : List String) (idx : Nat) (cleaned : List String) (nai : Option Nat),
      (∀ e ∈ cleaned, (∃ c, e = pyStrip c) ∧ e ≠ "") →
      ∀ e ∈ (sanitizeLoop ai rest idx cleaned nai).1, (∃ c, e = pyStrip c) ∧ e ≠ "" := by
  intro rest
  induction rest with
  | nil => intro idx cleaned nai h e he; exact h e he
  | cons choice rest' ih =>
    intro idx cleaned nai h e he
    rw [sanitizeLoop] at he
    by_cases hb : pyStrip choice = ""
    · rw [if_pos hb] at he
      exact ih (idx + 1) cleaned nai h e he
    · rw [if_neg hb] at he
      refine ih (idx + 1) (cleaned ++ [pyStrip choice]) _ ?_ e he
      intro x hx
      rcases List.mem_append.mp hx with h' | h'
      · exact h x h'
      · rcases List.mem_singleton.mp h' with rfl
        exact ⟨⟨choice, rfl⟩, hb⟩

/-- Behaviour of the sanitize loop: the cleaned prefix is preserved, the
answer index stays in bounds, and when it is set inside the loop it points at
the stripped text of the matching original choice. -/
theorem sanitizeLoop_spec (ai : Int) :
    ∀ (rest : List String) (idx : Nat) (cleaned : List String) (nai : Option Nat),
      (∀ j, nai = some j → j < cleaned.length) →
      (∃ suf, (sanitizeLoop ai rest idx cleaned nai).1 = cleaned ++ suf) ∧
      (∀ j, (sanitizeLoop ai rest idx cleaned nai).2 = some j →
        j < (sanitizeLoop ai rest idx cleaned nai).1.length) ∧
      ((sanitizeLoop ai rest idx cleaned nai).2 = nai ∨
        ∃ a j c, (sanitizeLoop ai rest idx cleaned nai).2 = some j ∧
          rest[a]? = some c ∧ ((idx + a : Nat) : Int) = ai ∧
          (sanitizeLoop ai rest idx cleaned nai).1[j]? = some (pyStrip c)) := by
  intro rest
  induction rest with
  | nil =>
    intro idx cleaned nai h
    refine ⟨⟨[], by simp [sanitizeLoop]⟩, ?_, Or.inl rfl⟩
    intro j hj
    simp only [sanitizeLoop] at hj ⊢
    exact h j hj
  | cons choice rest' ih =>
    intro idx cleaned nai h
    by_cases hb : pyStrip choice = ""
    · have hred : sanitizeLoop ai (choice :: rest') idx cleaned nai
          = sanitizeLoop ai rest' (idx + 1) cleaned nai := by
        rw [sanitizeLoop, if_pos hb]
      rw [hred]
      obtain ⟨h1, h2, h3⟩ := ih (idx + 1) cleaned nai h
      refine ⟨h1, h2, ?_⟩
      rcases h3 with h3 | ⟨a, j, c, hj, ha, hidx, hget⟩
      · exact Or.inl h3
      · refine Or.inr ⟨a + 1, j, c, hj, by simpa using ha, ?_, hget⟩
        rw [← hidx]
        push_cast
        ring
    · by_cases hidx : (idx : Int) = ai
      · have hred : sanitizeLoop ai (choice :: rest') idx cleaned nai
            = sanitizeLoop ai rest' (idx + 1) (cleaned ++ [pyStrip choice])
                (some cleaned.length) := by
          rw [sanitizeLoop, if_neg hb, if_pos hidx]
        rw [hred]
        have hbound : ∀ j, (some cleaned.length : Option Nat) = some j →
            j < (cleaned ++ [pyStrip choice]).length := by
          intro j hj
          cases hj
          simp
        obtain ⟨h1, h2, h3⟩ := ih (idx + 1) (cleaned ++ [pyStrip choice]) _ hbound
        obtain ⟨suf, hsuf⟩ := h1
        refine ⟨⟨pyStrip choice :: suf, by simpa using hsuf⟩, h2, ?_⟩
        rcases h3 with h3 | ⟨a, j, c, hj, ha, hidx2, hget⟩
        · refine Or.inr ⟨0, cleaned.length, choice, h3, by simp, by simpa using hidx, ?_⟩
          rw [hsuf]
          simp only [List.append_assoc, List.singleton_append]
          rw [List.getElem?_append_right (le_refl _)]
          simp
        · refine Or.inr ⟨a + 1, j, c, hj, by simpa using ha, ?_, hget⟩
          rw [← hidx2]
          push_cast
          ring
      · have hred : sanitizeLoop ai (choice :: rest') idx cleaned nai
            = sanitizeLoop ai rest' (idx + 1) (cleaned ++ [pyStrip choice]) nai := by
          rw [sanitizeLoop, if_neg hb, if_neg hidx]
        rw [hred]
        have hbound : ∀ j, nai = some j → j < (cleaned ++ [pyStrip choice]).length := by
          intro j hj
          have := h j hj
          simp only [List.length_append, List.length_singleton]
          omega
        obtain ⟨h1, h2, h3⟩ := ih (idx + 1) (cleaned ++ [pyStrip choice]) _ hbound
        obtain ⟨suf, hsuf⟩ := h1
        refine ⟨⟨pyStrip choice :: suf, by simpa using hsuf⟩, h2, ?_⟩
        rcases h3 with h3 | ⟨a, j, c, hj, ha, hidx2, hget⟩
        · exact Or.inl h3
        · refine Or.inr ⟨a + 1, j, c, hj, by simpa using ha, ?_, hget⟩
          rw [← hidx2]
          push_cast
          ring

/-- Claim C9 (confirmed): `_sanitize_choices` returns a cleaned list with no
blank (empty or whitespace-only) entry; the returned index is -1 or a valid
index into the cleaned list; and when it is not -1 it points at the stripped
text of the input choice sitting at the original answer position. -/
theorem C9_sanitize_choices_spec (choices : List String) (ai : Int) :
    (∀ e ∈ (sanitize_choices choices ai).1, (e.data.all Char.isWhitespace) = false) ∧
    ((sanitize_choices choices ai).2 = -1 ∨
      (0 ≤ (sanitize_choices choices ai).2 ∧
        (sanitize_choices choices ai).2 < ((sanitize_choices choices ai).1.length : Int))) ∧
    (∀ j : Nat, (sanitize_choices choices ai).2 = (j : Int) →
      ∃ a c, choices[a]? = some c ∧ ((a : Nat) : Int) = ai ∧
        (sanitize_choices choices ai).1[j]? = some (pyStrip c)) := by
  obtain ⟨⟨suf, hsuf⟩, h2, h3⟩ :=
    sanitizeLoop_spec ai choices 0 [] none (by intro j hj; cases hj)
  have hentries := sanitizeLoop_entries ai choices 0 [] none (by intro e he; cases he)
  refine ⟨?_, ?_, ?_⟩
  · intro e he
    unfold sanitize_choices at he
    have he' : e ∈ (sanitizeLoop ai choices 0 [] none).1 := by
      rcases hloop : sanitizeLoop ai choices 0 [] none with ⟨cl, nai⟩
      rw [hloop] at he
      cases nai <;> simpa [hloop] using he
    obtain ⟨⟨c, rfl⟩, hne⟩ := hentries _ he'
    have hdata : (pyStrip c).data = stripChars c.data := rfl
    rw [hdata]
    refine stripChars_not_all_ws c.data ?_
    intro hnil
    apply hne
    unfold pyStrip
    rw [hnil]
  · unfold sanitize_choices
    rcases hloop : sanitizeLoop ai choices 0 [] none with ⟨cl, nai⟩
    cases nai with
    | none => exact Or.inl rfl
    | some j =>
      have hj : j < cl.length := by
        have := h2 j
        rw [hloop] at this
        exact this rfl
      refine Or.inr ⟨by positivity, ?_⟩
      simp only
      exact_mod_cast hj
  · intro j hj
    unfold sanitize_choices at hj ⊢
    rcases hloop : sanitizeLoop ai choices 0 [] none with ⟨cl, nai⟩
    rw [hloop] at hj h3
    cases nai with
    | none =>
      simp only at hj
      omega
    | some j' =>
      simp only at hj
      have hjj : j' = j := by exact_mod_cast hj
      subst hjj
      rcases h3 with h3 | ⟨a, j2, c, hj2, ha, hidx, hget⟩
      · cases h3
      · obtain rfl : j2 = j' := by cases hj2; rfl
        exact ⟨a, c, ha, by simpa using hidx, hget⟩

/-- Witness for C9 at a concrete input: a blank entry is dropped, the answer
index is remapped onto the cleaned list, and no cleaned entry is blank. -/
theorem C9_sanitize_choices_spec_witness :
    sanitize_choices ["a", " ", "b"] 2 = (["a", "b"], 1) ∧
    ((sanitize_choices ["a", " ", "b"] 2).1.all
      (fun e => !(e.data.all Char.isWhitespace))) = true := by
  refine ⟨rfl, ?_⟩
  rw [List.all_eq_true]
  intro e he
  have h := (C9_sanitize_choices_spec ["a", " ", "b"] 2).1 e he
  simp [h]

/-! ## Claim C10 -/

theorem any_of_lookup_some (m : List (String × JVal)) (k : String) (x : JVal)
    (h : dictLookup m k = some x) : (m.any fun p => p.1 = k) = true := by
  unfold dictLookup at h
  obtain ⟨p, hfind, -⟩ := Option.map_eq_some'.mp h
  refine List.any_eq_true.mpr ⟨p, List.mem_of_find?_eq_some hfind, ?_⟩
  have hps := List.find?_some hfind
  simpa using hps

theorem any_of_lookup_none (m : List (String × JVal)) (k : String)
    (h : dictLookup m k = none) : (m.any fun p => p.1 = k) = false := by
  unfold dictLookup at h
  rw [Option.map_eq_none'] at h
  rw [List.find?_eq_none] at h
  by_contra hany
  rw [Bool.not_eq_false, List.any_eq_true] at hany
  obtain ⟨p, hp, hpk⟩ := hany
  exact h p hp hpk

theorem findReplace_self : ∀ (m : List (String × JVal)) (k : String) (v : JVal),
    (m.any fun p => p.1 = k) = true →
    dictLookup (m.map (fun p => if p.1 = k then (k, v) else p)) k = some v
  | [], k, v => by simp
  | p :: t, k, v => by
    intro h
    by_cases hp : p.1 = k
    · rw [List.map_cons, if_pos hp]
      simp [dictLookup]
    · rw [List.map_cons, if_neg hp]
      simp only [List.any_cons, Bool.or_eq_true] at h
      rcases h with h' | h'
      · exact absurd (of_decide_eq_true h') hp
      · have := findReplace_self t k v h'
        unfold dictLookup at this ⊢
        rwa [List.find?_cons_of_neg _ (by simpa using hp)]

theorem findAppend_new : ∀ (m : List (String × JVal)) (k : String) (v : JVal),
    (m.any fun p => p.1 = k) = false →
    dictLookup (m ++ [(k, v)]) k = some v
  | [], k, v => by simp [dictLookup]
  | p :: t, k, v => by
    intro h
    simp only [List.any_cons, Bool.or_eq_false_iff] at h
    have hp : ¬ (p.1 = k) := by simpa using h.1
    have := findAppend_new t k v h.2
    unfold dictLookup at this ⊢
    rw [List.cons_append, List.find?_cons_of_neg _ (by simpa using hp)]
    exact this

theorem dictLookup_set_self (m : List (String × JVal)) (k : String) (v : JVal) :
    dictLookup (dictSet m k v) k = some v := by
  unfold dictSet
  by_cases h : (m.any fun p => decide (p.1 = k)) = true
  · rw [if_pos h]; exact findReplace_self m k v h
  · rw [if_neg h]
    exact findAppend_new m k v (Bool.not_eq_true _ ▸ h)

theorem dictLookup_set_ne (m : List (String × JVal)) (k : String) (v : JVal)
    (k' : String) (hk : k' ≠ k) :
    dictLookup (dictSet m k v) k' = dictLookup m k' := by
  unfold dictSet
  by_cases h : (m.any fun p => decide (p.1 = k)) = true
  · rw [if_pos h]
    clear h
    induction m with
    | nil => rfl
    | cons p t ih =>
      rw [List.map_cons]
      by_cases hp : p.1 = k
      · rw [if_pos hp]
        unfold dictLookup
        rw [List.find?_cons_of_neg _ (by simpa using Ne.symm hk),
            List.find?_cons_of_neg _ (by simp [hp]; exact fun hh => hk (hh ▸ hp ▸ rfl))]
        exact ih
      · rw [if_neg hp]
        unfold dictLookup
        by_cases hp' : p.1 = k'
        · rw [List.find?_cons_of_pos _ (by simpa using hp'),
              List.find?_cons_of_pos _ (by simpa using hp')]
        · rw [List.find?_cons_of_neg _ (by simpa using hp'),
              List.find?_cons_of_neg _ (by simpa using hp')]
          exact ih
  · rw [if_neg h]
    unfold dictLookup
    rw [List.find?_append]
    have h2 : List.find? (fun p => p.1 = k') [(k, v)] = none := by
      simp [Ne.symm hk]
    rw [h2]
    simp

theorem dictLookup_pop_self (m : List (String × JVal)) (k : String) :
    dictLookup (dictPop m k) k = none := by
  unfold dictPop dictLookup
  rw [Option.map_eq_none', List.find?_eq_none]
  intro p hp
  have := List.of_mem_filter hp
  simpa using this

theorem dictLookup_pop_ne (m : List (String × JVal)) (k k' : String) (hk : k' ≠ k) :
    dictLookup (dictPop m k) k' = dictLookup m k' := by
  induction m with
  | nil => rfl
  | cons p t ih =>
    unfold dictPop dictLookup
    by_cases hp : p.1 = k
    · rw [List.filter_cons_of_neg (by simpa using hp)]
      have hne : ¬ (p.1 = k') := by rw [hp]; exact Ne.symm hk
      rw [List.find?_cons_of_neg _ (by simpa using hne)]
      exact ih
    · rw [List.filter_cons_of_pos (by simpa using hp)]
      by_cases hp' : p.1 = k'
      · rw [List.find?_cons_of_pos _ (by simpa using hp'),
            List.find?_cons_of_pos _ (by simpa using hp')]
      · rw [List.find?_cons_of_neg _ (by simpa using hp'),
            List.find?_cons_of_neg _ (by simpa using hp')]
        exact ih

theorem lookup_dropBadGeneratedAt_ne (r : List (String × JVal)) (k : String)
    (hk : k ≠ "generatedAt") :
    dictLookup (dropBadGeneratedAt r) k = dictLookup r k := by
  unfold dropBadGeneratedAt
  cases h : dictLookup r "generatedAt" with
  | none => rfl
  | some v =>
    simp only
    split_ifs with hc
    · exact dictLookup_pop_ne r "generatedAt" k hk
    · rfl

theorem lookup_dropBadSourceSessions_ne (r : List (String × JVal)) (k : String)
    (hk : k ≠ "sourceSessions") :
    dictLookup (dropBadSourceSessions r) k = dictLookup r k := by
  unfold dropBadSourceSessions
  cases h : dictLookup r "sourceSessions" with
  | none => rfl
  | some v =>
    simp only
    split_ifs with hc
    · exact dictLookup_pop_ne r "sourceSessions" k hk
    · rfl

theorem lookup_fixVersion_ne (r : List (String × JVal)) (k : String)
    (hk : k ≠ "version") :
    dictLookup (fixVersion r) k = dictLookup r k := by
  unfold fixVersion
  cases h : dictLookup r "version" with
  | none => rfl
  | some v =>
    simp only
    split_ifs with hc
    · exact dictLookup_set_ne r "version" (.jint 1) k hk
    · rfl

theorem generatedAt_good_after (r : List (String × JVal)) (v : JVal)
    (h : dictLookup (dropBadGeneratedAt r) "generatedAt" = some v) :
    ¬ (v ≠ .jnull ∧ isStr v = false) := by
  unfold dropBadGeneratedAt at h
  cases hl : dictLookup r "generatedAt" with
  | none =>
    rw [hl] at h
    simp only at h
    rw [h] at hl
    cases hl
  | some w =>
    rw [hl] at h
    simp only at h
    split_ifs at h with hc
    · rw [dictLookup_pop_self] at h; cases h
    · rw [hl] at h
      cases h
      exact hc

theorem sourceSessions_good_after (r : List (String × JVal)) (v : JVal)
    (h : dictLookup (dropBadSourceSessions r) "sourceSessions" = some v) :
    ¬ (v ≠ .jnull ∧ (isList v = false ∨ (jElems v).all isStr = false)) := by
  unfold dropBadSourceSessions at h
  cases hl : dictLookup r "sourceSessions" with
  | none =>
    rw [hl] at h
    simp only at h
    rw [h] at hl
    cases hl
  | some w =>
    rw [hl] at h
    simp only at h
    split_ifs at h with hc
    · rw [dictLookup_pop_self] at h; cases h
    · rw [hl] at h
      cases h
      exact hc

theorem repairLoop_valid : ∀ (l valid : List JVal) (ids : List String),
    repairLoop l = .ok (valid, ids) → ∀ q ∈ valid, validate_question q = .ok ()
  | [], valid, ids => by
    intro h q hq
    cases h
    cases hq
  | x :: l, valid, ids => by
    intro h q hq
    unfold repairLoop at h
    cases hv : validate_question x with
    | ok u =>
      rw [hv] at h
      simp only at h
      cases hrl : repairLoop l with
      | error e2 => rw [hrl] at h; simp only at h; cases h
      | ok pr =>
        rcases pr with ⟨vs, ids2⟩
        rw [hrl] at h
        simp only at h
        cases h
        rcases List.mem_cons.mp hq with rfl | hq'
        · cases u; exact hv
        · exact repairLoop_valid l _ _ hrl q hq'
    | error e =>
      rw [hv] at h
      cases e with
      | validation =>
        simp only at h
        cases hrl : repairLoop l with
        | error e2 => rw [hrl] at h; simp only at h; cases h
        | ok pr =>
          rcases pr with ⟨vs, ids2⟩
          rw [hrl] at h
          simp only at h
          cases h
          exact repairLoop_valid l _ _ hrl q hq
      | typeError => simp only at h; cases h
      | attributeError => simp only at h; cases h

theorem validateQuestionList_ok : ∀ l : List JVal,
    (∀ q ∈ l, validate_question q = .ok ()) → validateQuestionList l = .ok ()
  | [] => fun _ => rfl
  | q :: qs => by
    intro h
    unfold validateQuestionList
    rw [h q (by simp)]
    exact validateQuestionList_ok qs (fun x hx => h x (List.mem_cons_of_mem _ hx))

/-- Claim C10, counterexample: `repair_seed` does NOT tolerate every input
shape. A seed whose questions list contains the integer 1 makes
`validate_question` raise `TypeError` (membership test on a non-iterable),
which `repair_seed` does not catch — it only catches `ValidationError` — so
no repaired corpus is returned at all. -/
theorem C10_repair_seed_type_error :
    repair_seed (.jobj [("questions", .jarr [.jint 1])]) = .error .typeError := by
  rfl

/-- Claim C10 as amended: whenever `repair_seed` does return a corpus, that
corpus passes `validate_seed`: the questions entry holds exactly the retained
individually-valid questions, and ill-typed `generatedAt`/`sourceSessions`
metadata was dropped. (Inputs whose questions support membership tests —
in particular any list of dict-shaped questions — always return.) -/
theorem C10_repair_seed_validates (seed out : JVal) (ids : List String)
    (h : repair_seed seed = .ok (out, ids)) : validate_seed out = .ok () := by
  unfold repair_seed at h
  cases seed with
  | jobj fields =>
    simp only at h
    cases hrl : repairLoop (jElems (match dictLookup fields "questions" with
                                    | some v => v
                                    | none => JVal.jarr [])) with
    | error e => rw [hrl] at h; simp only at h; cases h
    | ok pr =>
      rcases pr with ⟨valid, invalidIds⟩
      rw [hrl] at h
      simp only at h
      cases h
      have heq := hrl
      have hq : dictLookup (repairMeta fields valid) "questions" = some (.jarr valid) := by
        unfold repairMeta
        rw [lookup_fixVersion_ne _ _ (by decide),
            lookup_dropBadSourceSessions_ne _ _ (by decide),
            lookup_dropBadGeneratedAt_ne _ _ (by decide),
            dictLookup_set_self]
      have hc1 : pyContains (.jobj (repairMeta fields valid)) "questions" = .ok true := by
        unfold pyContains
        simp only
        rw [any_of_lookup_some _ _ _ hq]
      have hs1 : pySubscript (.jobj (repairMeta fields valid)) "questions"
          = .ok (.jarr valid) := by
        unfold pySubscript
        simp only
        rw [hq]
      have hg : checkGeneratedAt (.jobj (repairMeta fields valid)) = .ok () := by
        unfold checkGeneratedAt
        cases hl : dictLookup (repairMeta fields valid) "generatedAt" with
        | none =>
          have hcont : pyContains (.jobj (repairMeta fields valid)) "generatedAt"
              = .ok false := by
            unfold pyContains
            simp only
            rw [any_of_lookup_none _ _ hl]
          simp [hcont]
        | some v =>
          have hcont : pyContains (.jobj (repairMeta fields valid)) "generatedAt"
              = .ok true := by
            unfold pyContains
            simp only
            rw [any_of_lookup_some _ _ _ hl]
          have hsub : pySubscript (.jobj (repairMeta fields valid)) "generatedAt"
              = .ok v := by
            unfold pySubscript
            simp only
            rw [hl]
          have hl' : dictLookup (dropBadGeneratedAt
              (dictSet fields "questions" (.jarr valid))) "generatedAt" = some v := by
            rw [← lookup_dropBadSourceSessions_ne _ _ (by decide),
                ← lookup_fixVersion_ne _ _ (by decide)]
            exact hl
          have hgood := generatedAt_good_after _ v hl'
          simp [hcont, hsub, hgood]
      have hs : checkSourceSessions (.jobj (repairMeta fields valid)) = .ok () := by
        unfold checkSourceSessions
        cases hl : dictLookup (repairMeta fields valid) "sourceSessions" with
        | none =>
          have hcont : pyContains (.jobj (repairMeta fields valid)) "sourceSessions"
              = .ok false := by
            unfold pyContains
            simp only
            rw [any_of_lookup_none _ _ hl]
          simp [hcont]
        | some v =>
          have hcont : pyContains (.jobj (repairMeta fields valid)) "sourceSessions"
              = .ok true := by
            unfold pyContains
            simp only
            rw [any_of_lookup_some _ _ _ hl]
          have hsub : pySubscript (.jobj (repairMeta fields valid)) "sourceSessions"
              = .ok v := by
            unfold pySubscript
            simp only
            rw [hl]
          have hl' : dictLookup (dropBadSourceSessions (dropBadGeneratedAt
              (dictSet fields "questions" (.jarr valid)))) "sourceSessions" = some v := by
            rw [← lookup_fixVersion_ne _ _ (by decide)]
            exact hl
          have hgood := sourceSessions_good_after _ v hl'
          simp [hcont, hsub]
          intro hnn
          push_neg at hgood
          obtain ⟨ha, hb⟩ := hgood hnn
          exact ⟨by simpa using ha, fun x hx => List.all_eq_true.mp (by simpa using hb) x hx⟩
      have hvl : validateQuestionList valid = .ok () :=
        validateQuestionList_ok valid (repairLoop_valid _ _ _ heq)
      unfold validate_seed
      rw [hc1]
      simp [hs1, hg, hs, isList, jElems, hvl]
  | jnull =>
    simp only at h
    cases h
    rfl
  | jbool b =>
    simp only at h
    cases h
    rfl
  | jint n =>
    simp only at h
    cases h
    rfl
  | jstr s =>
    simp only at h
    cases h
    rfl
  | jarr xs =>
    simp only at h
    cases h
    rfl

/-- A seed with one invalid question (its answerIndex is -1), an ill-typed
generatedAt, and one valid question. -/
def c10wseed : JVal :=
  .jobj [("generatedAt", .jint 5),
         ("questions", .jarr [mkRecord "x" "c" 2024 "t" ["a"] (-1) "e" "u",
                              mkRecord "y" "c" 2024 "t" ["a"] 0 "e" "u"])]

/-- The repaired corpus for `c10wseed`: the ill-typed generatedAt is dropped
and only the valid question is retained. -/
def c10out : JVal :=
  .jobj [("questions", .jarr [mkRecord "y" "c" 2024 "t" ["a"] 0 "e" "u"])]

/-- Witness for the amended theorem of C10: the concrete seed is repaired into a
corpus that validates. -/
theorem C10_repair_seed_validates_witness :
    repair_seed c10wseed = .ok (c10out, ["x"]) ∧ validate_seed c10out = .ok () := by
  exact ⟨rfl, C10_repair_seed_validates c10wseed c10out ["x"] rfl⟩

/-! ## Claim C7 -/

/-- The ids `q["id"]` of a record list, in order (erroring like the
`q["id"]` subscripts inside `merge_questions` would). -/
def idsOf : List JVal → Except PyErr (List JVal)
  | [] => .ok []
  | q :: qs =>
    match pySubscript q "id" with
    | .error e => .error e
    | .ok k =>
      match idsOf qs with
      | .error e => .error e
      | .ok rest => .ok (k :: rest)

theorem idsOf_length : ∀ (A idsA : List JVal), idsOf A = .ok idsA →
    idsA.length = A.length
  | [], idsA => by
    intro h
    cases h
    rfl
  | q :: qs, idsA => by
    intro h
    unfold idsOf at h
    cases hk : pySubscript q "id" with
    | error e => rw [hk] at h; simp only at h; cases h
    | ok k =>
      rw [hk] at h
      simp only at h
      cases hr : idsOf qs with
      | error e => rw [hr] at h; simp only at h; cases h
      | ok rest =>
        rw [hr] at h
        simp only at h
        cases h
        simp [idsOf_length qs rest hr]

theorem buildByIdGo_spec : ∀ (A idsA : List JVal) (acc : List (JVal × JVal)),
    idsOf A = .ok idsA →
    idsA.Nodup →
    (∀ k ∈ idsA, (acc.any fun p => p.1 = k) = false) →
    buildByIdGo A acc = .ok (acc ++ idsA.zip A)
  | [], idsA, acc => by
    intro h hnd hacc
    cases h
    simp [buildByIdGo]
  | q :: qs, idsA, acc => by
    intro h hnd hacc
    unfold idsOf at h
    cases hk : pySubscript q "id" with
    | error e => rw [hk] at h; simp only at h; cases h
    | ok k =>
      rw [hk] at h
      simp only at h
      cases hr : idsOf qs with
      | error e => rw [hr] at h; simp only at h; cases h
      | ok rest =>
        rw [hr] at h
        simp only at h
        cases h
        unfold buildByIdGo
        rw [hk]
        simp only
        have hknew : (acc.any fun p => p.1 = k) = false := hacc k (by simp)
        have hins : jdictInsert acc k q = acc ++ [(k, q)] := by
          unfold jdictInsert
          rw [if_neg (by rw [hknew]; exact Bool.false_ne_true)]
        rw [hins]
        have hnd' : rest.Nodup := (List.nodup_cons.mp hnd).2
        have hknotin : k ∉ rest := (List.nodup_cons.mp hnd).1
        have hacc' : ∀ k' ∈ rest, ((acc ++ [(k, q)]).any fun p => p.1 = k') = false := by
          intro k' hk'
          rw [List.any_append]
          have h1 : (acc.any fun p => p.1 = k') = false :=
            hacc k' (List.mem_cons_of_mem _ hk')
          have h2 : ([(k, q)].any fun p => p.1 = k') = false := by
            simp only [List.any_cons, List.any_nil, Bool.or_false]
            exact decide_eq_false (fun hkk => hknotin (hkk ▸ hk'))
          rw [h1, h2]
          rfl
        have := buildByIdGo_spec qs rest (acc ++ [(k, q)]) hr hnd' hacc'
        rw [this]
        simp

theorem mergeLoopGo_allPresent : ∀ (A idsA : List JVal) (m : List (JVal × JVal)) (a r : Nat),
    idsOf A = .ok idsA →
    (∀ k ∈ idsA, (m.any fun p => p.1 = k) = true) →
    mergeLoopGo A false m a r = .ok (m, a, r)
  | [], idsA, m, a, r => by
    intro h hm
    rfl
  | q :: qs, idsA, m, a, r => by
    intro h hm
    unfold idsOf at h
    cases hk : pySubscript q "id" with
    | error e => rw [hk] at h; simp only at h; cases h
    | ok k =>
      rw [hk] at h
      simp only at h
      cases hr : idsOf qs with
      | error e => rw [hr] at h; simp only at h; cases h
      | ok rest =>
        rw [hr] at h
        simp only at h
        cases h
        unfold mergeLoopGo
        rw [hk]
        simp only
        rw [if_pos (hm k (by simp))]
        exact mergeLoopGo_allPresent qs rest m a r hr
          (fun k' hk' => hm k' (List.mem_cons_of_mem _ hk'))

/-- Claim C7 (confirmed): merging a corpus with itself with `prefer_new =
False` adds nothing, replaces nothing, and returns exactly the same record
list. The hypotheses state that `A` is a corpus: every record carries an `id`
and the ids are pairwise distinct (the Corpus invariant of the spec). -/
theorem C7_merge_self_identity (A idsA : List JVal)
    (hid : idsOf A = .ok idsA) (hnd : idsA.Nodup) :
    merge_questions A A false = .ok (A, 0, 0) := by
  have hlen : idsA.length = A.length := idsOf_length A idsA hid
  have hbuild := buildByIdGo_spec A idsA [] hid hnd (by intro k hk; rfl)
  rw [List.nil_append] at hbuild
  have hkeys : ∀ k ∈ idsA, ((idsA.zip A).any fun p => p.1 = k) = true := by
    intro k hk
    have hmem : k ∈ (idsA.zip A).map Prod.fst := by
      rw [List.map_fst_zip idsA A (le_of_eq hlen)]
      exact hk
    obtain ⟨p, hp, hpk⟩ := List.mem_map.mp hmem
    exact List.any_eq_true.mpr ⟨p, hp, by simp [hpk]⟩
  have hmerge := mergeLoopGo_allPresent A idsA (idsA.zip A) 0 0 hid hkeys
  unfold merge_questions
  rw [hbuild]
  simp only
  rw [hmerge]
  simp only
  rw [List.map_snd_zip idsA A (le_of_eq hlen.symm)]

/-- Witness for C7 at a concrete two-record corpus. -/
theorem C7_merge_self_identity_witness :
    merge_questions [c2q1, c2q2] [c2q1, c2q2] false = .ok ([c2q1, c2q2], 0, 0) := by
  exact C7_merge_self_identity [c2q1, c2q2] [.jstr "a", .jstr "b"] rfl (by decide)

/-! ## Claim C4 -/

theorem retryGo_all_caught : ∀ (rem : Nat) (net : Nat → NetResult) (backoff attempt : Nat),
    (∀ k, attempt ≤ k → k ≤ attempt + rem → ∃ f, classifyAttempt (net k) = .caught f) →
    (retryGo net backoff attempt rem).attempts = attempt + rem ∧
    (∃ f, classifyAttempt (net (attempt + rem)) = .caught f ∧
      (retryGo net backoff attempt rem).outcome = .error f) ∧
    (retryGo net backoff attempt rem).sleeps
      = (List.range rem).map (fun i => backoff * 2 ^ i)
  | 0, net, backoff, attempt => by
    intro h
    obtain ⟨f, hf⟩ := h attempt le_rfl (by omega)
    unfold retryGo
    rw [hf]
    refine ⟨by simp, ⟨f, ?_, rfl⟩, by simp⟩
    simpa using hf
  | rem + 1, net, backoff, attempt => by
    intro h
    obtain ⟨f, hf⟩ := h attempt le_rfl (by omega)
    unfold retryGo
    rw [hf]
    simp only
    obtain ⟨h1, ⟨f2, hf2, hout⟩, h3⟩ := retryGo_all_caught rem net (backoff * 2) (attempt + 1)
      (fun k hk1 hk2 => h k (by omega) (by omega))
    refine ⟨by rw [h1]; omega, ⟨f2, by convert hf2 using 3; omega, hout⟩, ?_⟩
    rw [h3, List.range_succ_eq_map]
    have hp : ∀ i : Nat, backoff * 2 * 2 ^ i = backoff * 2 ^ (i + 1) := by
      intro i
      ring
    simp [List.map_map, Function.comp, hp]

theorem retryGo_uncaught (net : Nat → NetResult) (backoff attempt : Nat) (rem : Nat)
    (f : Failure) (h : classifyAttempt (net attempt) = .uncaught f) :
    retryGo net backoff attempt rem = ⟨.error f, attempt, []⟩ := by
  cases rem <;> (unfold retryGo; rw [h])

/-- Claim C4 as amended. Part 1: when every attempt fails with a retryable
failure (timeout, connection error, HTTP 429 or 5xx), `_request_with_retry`
issues exactly `max_retries` attempts, re-raises the failure of the last
attempt, and sleeps `1.0 * 2^(k-1)` seconds between attempts k and k+1 (the
base delay is the hard-coded 1.0, doubling each retry). Part 2: a 4xx status
other than 429 raises `HTTPError` immediately on the first attempt with no
retry — but 2xx AND 3xx responses are returned, so (contrary to the claim as
stated) not every non-2xx status raises. -/
theorem C4_retry_backoff :
    (∀ (net : Nat → NetResult) (maxR : Nat), 1 ≤ maxR →
      (∀ k, 1 ≤ k → k ≤ maxR → ∃ f, classifyAttempt (net k) = .caught f) →
      (requestWithRetry net maxR).attempts = maxR ∧
      (∃ f, classifyAttempt (net maxR) = .caught f ∧
        (requestWithRetry net maxR).outcome = .error f) ∧
      (requestWithRetry net maxR).sleeps = (List.range (maxR - 1)).map (fun k => 2 ^ k)) ∧
    (∀ (net : Nat → NetResult) (maxR : Nat) (r : Response),
      net 1 = .resp r → 400 ≤ r.status → r.status < 500 → r.status ≠ 429 →
      requestWithRetry net maxR = ⟨.error (.httpError r.status), 1, []⟩) := by
  constructor
  · intro net maxR hmax h
    have hrange : ∀ k, 1 ≤ k → k ≤ 1 + (maxR - 1) → ∃ f, classifyAttempt (net k) = .caught f :=
      fun k hk1 hk2 => h k hk1 (by omega)
    obtain ⟨h1, ⟨f, hf, hout⟩, h3⟩ := retryGo_all_caught (maxR - 1) net 1 1 hrange
    unfold requestWithRetry
    refine ⟨by rw [h1]; omega, ⟨f, by convert hf using 3; omega, hout⟩, ?_⟩
    rw [h3]
    simp
  · intro net maxR r hnet h400 h500 h429
    have hcl : classifyAttempt (net 1) = .uncaught (.httpError r.status) := by
      rw [hnet]
      unfold classifyAttempt
      simp only
      rw [if_neg (by omega), if_pos (by omega)]
    unfold requestWithRetry
    exact retryGo_uncaught net 1 1 (maxR - 1) _ hcl

/-- Witness for C4: a permanent 503 with `max_retries = 3` is attempted
exactly 3 times with sleeps of 1 then 2 seconds; a 404 raises on attempt 1. -/
theorem C4_retry_backoff_witness :
    (requestWithRetry (fun _ => .resp ⟨503, "", ""⟩) 3).attempts = 3 ∧
    (requestWithRetry (fun _ => .resp ⟨503, "", ""⟩) 3).sleeps = [1, 2] ∧
    requestWithRetry (fun _ => .resp ⟨404, "", ""⟩) 5
      = ⟨.error (.httpError 404), 1, []⟩ := by
  obtain ⟨h1, -, h3⟩ := C4_retry_backoff.1 (fun _ => .resp ⟨503, "", ""⟩) 3 (by decide)
    (fun k _ _ => ⟨.temporary 503,
      by show classifyAttempt (NetResult.resp ⟨503, "", ""⟩) = .caught (.temporary 503)
         decide⟩)
  refine ⟨h1, ?_, C4_retry_backoff.2 (fun _ => .resp ⟨404, "", ""⟩) 5 ⟨404, "", ""⟩ rfl
    (by decide) (by decide) (by decide)⟩
  rw [h3]
  decide

/-- Claim C4, counterexample: HTTP 304 is a non-2xx status, yet
`_request_with_retry` returns the response without raising (`raise_for_status`
only raises for 400-599), refuting "any other non-2xx status raises without
retry". -/
theorem C4_counterexample_304 :
    requestWithRetry (fun _ => .resp ⟨304, "", ""⟩) 5
      = ⟨.ok ⟨304, "", ""⟩, 1, []⟩ := by
  rfl

/-! ## Claim C6 -/

instance : IsTotal (String × String) (fun a b => a.1 ≤ b.1) :=
  ⟨fun a b => le_total a.1 b.1⟩

instance : IsTrans (String × String) (fun a b => a.1 ≤ b.1) :=
  ⟨fun _ _ _ hab hbc => le_trans hab hbc⟩

instance : IsAntisymm (String × String) (fun a b => a.1 < b.1) :=
  ⟨fun _ _ h1 h2 => absurd (lt_trans h1 h2) (lt_irrefl _)⟩

theorem sortRendered_perm_eq (l1 l2 : List (String × String)) (h : l1.Perm l2)
    (hnd : (l1.map Prod.fst).Nodup) : sortRendered l1 = sortRendered l2 := by
  have hperm : (sortRendered l1).Perm (sortRendered l2) :=
    ((List.perm_insertionSort _ l1).trans h).trans (List.perm_insertionSort _ l2).symm
  have hs1 : (sortRendered l1).Sorted (fun a b : String × String => a.1 ≤ b.1) :=
    List.sorted_insertionSort _ l1
  have hs2 : (sortRendered l2).Sorted (fun a b : String × String => a.1 ≤ b.1) :=
    List.sorted_insertionSort _ l2
  have hnd1 : ((sortRendered l1).map Prod.fst).Nodup :=
    hnd.perm ((List.perm_insertionSort _ l1).map Prod.fst).symm
  have hnd2 : ((sortRendered l2).map Prod.fst).Nodup :=
    hnd1.perm (hperm.map Prod.fst)
  have hlt1 : (sortRendered l1).Pairwise (fun a b : String × String => a.1 < b.1) :=
    (hs1.and (List.pairwise_map.mp hnd1)).imp
      (fun hab => lt_of_le_of_ne hab.1 hab.2)
  have hlt2 : (sortRendered l2).Pairwise (fun a b : String × String => a.1 < b.1) :=
    (hs2.and (List.pairwise_map.mp hnd2)).imp
      (fun hab => lt_of_le_of_ne hab.1 hab.2)
  exact List.eq_of_perm_of_sorted hperm hlt1 hlt2

theorem jsonDumpsFields_eq_map : ∀ fs : List (String × JVal),
    jsonDumpsFields fs = fs.map (fun p => (p.1, jsonDumps p.2))
  | [] => rfl
  | (k, v) :: fs => by
    rw [jsonDumpsFields, jsonDumpsFields_eq_map fs, List.map_cons]

theorem jsonDumps_obj_perm (fs1 fs2 : List (String × JVal)) (h : fs1.Perm fs2)
    (hnd : (fs1.map Prod.fst).Nodup) :
    jsonDumps (.jobj fs1) = jsonDumps (.jobj fs2) := by
  have hperm : (jsonDumpsFields fs1).Perm (jsonDumpsFields fs2) := by
    rw [jsonDumpsFields_eq_map, jsonDumpsFields_eq_map]
    exact h.map _
  have hndf : ((jsonDumpsFields fs1).map Prod.fst).Nodup := by
    rw [jsonDumpsFields_eq_map, List.map_map]
    exact hnd
  rw [jsonDumps]
  rw [jsonDumps]
  rw [sortRendered_perm_eq _ _ hperm hndf]

/-- Claim C6 as amended. Part 1: an explicit non-empty cache key is used
verbatim (with the `.cache` suffix). Part 2: without an explicit key the
fingerprint is insensitive to the ordering of `params` and of `json_body`
(sorted-key serialization). What FAILS in the claim is "different request
content gives different fingerprints": the hash covers only url, params and
json_body, ignoring the method, the headers and the urlencoded `data` body —
see the counterexample. -/
theorem C6_fingerprint :
    (∀ (cfg : RequestConfig) (s : String), s ≠ "" → cfg.cache_key = some s →
      cache_path cfg = s ++ ".cache") ∧
    (∀ (cfg : RequestConfig) (ps1 ps2 bs1 bs2 : List (String × JVal)),
      ps1.Perm ps2 → (ps1.map Prod.fst).Nodup →
      bs1.Perm bs2 → (bs1.map Prod.fst).Nodup →
      hash_key { cfg with params := some ps1, json_body := some bs1 }
        = hash_key { cfg with params := some ps2, json_body := some bs2 }) := by
  constructor
  · intro cfg s hs hk
    unfold cache_path
    rw [hk]
    simp only
    rw [if_pos hs]
  · intro cfg ps1 ps2 bs1 bs2 hp hpnd hb hbnd
    unfold hash_key
    simp only
    have h1 : (if ps1 ≠ [] then jsonDumps (.jobj ps1) else "")
        = (if ps2 ≠ [] then jsonDumps (.jobj ps2) else "") := by
      by_cases hnil : ps1 = []
      · have hnil2 : ps2 = [] := (hnil ▸ hp).symm.eq_nil
        simp [hnil, hnil2]
      · have hnil2 : ps2 ≠ [] := fun h2 => hnil (h2 ▸ hp).eq_nil
        rw [if_pos hnil, if_pos hnil2, jsonDumps_obj_perm ps1 ps2 hp hpnd]
    have h2 : (if bs1 ≠ [] then jsonDumps (.jobj bs1) else "")
        = (if bs2 ≠ [] then jsonDumps (.jobj bs2) else "") := by
      by_cases hnil : bs1 = []
      · have hnil2 : bs2 = [] := (hnil ▸ hb).symm.eq_nil
        simp [hnil, hnil2]
      · have hnil2 : bs2 ≠ [] := fun h2 => hnil (h2 ▸ hb).eq_nil
        rw [if_pos hnil, if_pos hnil2, jsonDumps_obj_perm bs1 bs2 hb hbnd]
    rw [h1, h2]

/-- Two POST requests to the same URL whose urlencoded form bodies differ. -/
def c6cfg1 : RequestConfig :=
  { url := "https://example.test/q", method := "POST", data := some [("qno", "1")] }

def c6cfg2 : RequestConfig :=
  { url := "https://example.test/q", method := "POST", data := some [("qno", "2")] }

/-- Claim C6, counterexample: `_hash_key` ignores `config.data` (and the
method and headers), so two requests with different bodies — here the same
URL with different urlencoded form payloads — receive the SAME fingerprint
and hence the same cache path, refuting "two requests with different request
content (including different bodies) get different fingerprints". The hash
inputs are literally identical byte strings, so this holds for real SHA-256
too. -/
theorem C6_counterexample_data_ignored :
    c6cfg1 ≠ c6cfg2 ∧ c6cfg1.data ≠ c6cfg2.data ∧
    hash_key c6cfg1 = hash_key c6cfg2 ∧ cache_path c6cfg1 = cache_path c6cfg2 := by
  refine ⟨by decide, by decide, rfl, rfl⟩

/-- Witness for C6: an explicit key is used verbatim, and reordering the two
query parameters leaves the fingerprint unchanged. -/
theorem C6_fingerprint_witness :
    cache_path { url := "u", cache_key := some "K" } = "K.cache" ∧
    hash_key { url := "u", params := some [("a", .jint 1), ("b", .jint 2)],
               json_body := some [] }
      = hash_key { url := "u", params := some [("b", .jint 2), ("a", .jint 1)],
                   json_body := some [] } := by
  constructor
  · exact C6_fingerprint.1 { url := "u", cache_key := some "K" } "K" (by decide) rfl
  · exact C6_fingerprint.2 { url := "u" } [("a", .jint 1), ("b", .jint 2)]
      [("b", .jint 2), ("a", .jint 1)] [] []
      (List.Perm.swap _ _ _) (by decide) (List.Perm.refl _) (by decide)

/-! ## Claim C3 -/

theorem cacheFindReplace_self : ∀ (m : List (String × String)) (k v : String),
    (m.any fun p => p.1 = k) = true →
    cacheLookup (m.map (fun p => if p.1 = k then (k, v) else p)) k = some v
  | [], k, v => by simp
  | p :: t, k, v => by
    intro h
    by_cases hp : p.1 = k
    · rw [List.map_cons, if_pos hp]
      simp [cacheLookup]
    · rw [List.map_cons, if_neg hp]
      simp only [List.any_cons, Bool.or_eq_true] at h
      rcases h with h' | h'
      · exact absurd (of_decide_eq_true h') hp
      · have := cacheFindReplace_self t k v h'
        unfold cacheLookup at this ⊢
        rwa [List.find?_cons_of_neg _ (by simpa using hp)]

theorem cacheFindAppend_new : ∀ (m : List (String × String)) (k v : String),
    (m.any fun p => p.1 = k) = false →
    cacheLookup (m ++ [(k, v)]) k = some v
  | [], k, v => by simp [cacheLookup]
  | p :: t, k, v => by
    intro h
    simp only [List.any_cons, Bool.or_eq_false_iff] at h
    have hp : ¬ (p.1 = k) := by simpa using h.1
    have := cacheFindAppend_new t k v h.2
    unfold cacheLookup at this ⊢
    rw [List.cons_append, List.find?_cons_of_neg _ (by simpa using hp)]
    exact this

theorem cacheWrite_lookup_self (m : List (String × String)) (k v : String) :
    cacheLookup (cacheWrite m k v) k = some v := by
  unfold cacheWrite
  by_cases h : (m.any fun p => decide (p.1 = k)) = true
  · rw [if_pos h]; exact cacheFindReplace_self m k v h
  · rw [if_neg h]
    exact cacheFindAppend_new m k v (Bool.not_eq_true _ ▸ h)

theorem fetch_cache_hit {V : Type} (parse : String → Option V) (client : HttpClient)
    (net : Nat → NetResult) (cache : List (String × String)) (cfg : RequestConfig)
    (bytes : String) (hce : client.cache_enabled = true)
    (hlk : cacheLookup cache (cache_path cfg) = some bytes) :
    fetch parse client net cache cfg
      = ⟨.ok (decode_cached parse bytes), cache, 0, false⟩ := by
  simp [fetch, hce, hlk]

theorem fetch_cache_miss_ok {V : Type} (parse : String → Option V) (client : HttpClient)
    (net : Nat → NetResult) (cache : List (String × String)) (cfg : RequestConfig)
    (resp : Response) (d : Decoded V) (hce : client.cache_enabled = true)
    (hlk : cacheLookup cache (cache_path cfg) = none)
    (hrr : (requestWithRetry net client.max_retries).outcome = .ok resp)
    (hdec : decode_response parse resp = .ok d) :
    fetch parse client net cache cfg
      = ⟨.ok d, cacheWrite cache (cache_path cfg) resp.body,
         (requestWithRetry net client.max_retries).attempts, true⟩ := by
  simp [fetch, fetchNetwork, hce, hlk, hrr, hdec]

theorem fetch_cache_miss_netfail {V : Type} (parse : String → Option V)
    (client : HttpClient) (net : Nat → NetResult) (cache : List (String × String))
    (cfg : RequestConfig) (f : Failure) (hce : client.cache_enabled = true)
    (hlk : cacheLookup cache (cache_path cfg) = none)
    (hrr : (requestWithRetry net client.max_retries).outcome = .error f) :
    fetch parse client net cache cfg
      = ⟨.error (.net f), cache, (requestWithRetry net client.max_retries).attempts, true⟩ := by
  simp [fetch, fetchNetwork, hce, hlk, hrr]

theorem fetch_cache_miss_decodefail {V : Type} (parse : String → Option V)
    (client : HttpClient) (net : Nat → NetResult) (cache : List (String × String))
    (cfg : RequestConfig) (resp : Response) (hce : client.cache_enabled = true)
    (hlk : cacheLookup cache (cache_path cfg) = none)
    (hrr : (requestWithRetry net client.max_retries).outcome = .ok resp)
    (hdec : decode_response parse resp = .error ()) :
    fetch parse client net cache cfg
      = ⟨.error .decode, cacheWrite cache (cache_path cfg) resp.body,
         (requestWithRetry net client.max_retries).attempts, true⟩ := by
  simp [fetch, fetchNetwork, hce, hlk, hrr, hdec]

/-- Claim C3 as amended. Part 1: with caching enabled, after a successful
fetch the same request is served from the cache: no network attempt, no
throttle, and the result is the cached raw bytes re-decoded JSON-first by
`_decode_cached`. Part 2: that re-decode equals the first fetch's decoded
content whenever the response carried a JSON content type or its body does
not parse as JSON — the failing case (non-JSON content type whose body parses
as JSON) is the counterexample. -/
theorem C3_cache_second_fetch :
    (∀ (V : Type) (parse : String → Option V) (client : HttpClient)
        (net net2 : Nat → NetResult) (cache : List (String × String))
        (cfg : RequestConfig) (d1 : Decoded V),
      client.cache_enabled = true →
      (fetch parse client net cache cfg).outcome = .ok d1 →
      (fetch parse client net2 (fetch parse client net cache cfg).cache cfg).networkCalls = 0 ∧
      (fetch parse client net2 (fetch parse client net cache cfg).cache cfg).throttled = false ∧
      ∃ bytes,
        cacheLookup (fetch parse client net cache cfg).cache (cache_path cfg) = some bytes ∧
        (fetch parse client net2 (fetch parse client net cache cfg).cache cfg).outcome
          = .ok (decode_cached parse bytes)) ∧
    (∀ (V : Type) (parse : String → Option V) (client : HttpClient)
        (net net2 : Nat → NetResult) (cache : List (String × String))
        (cfg : RequestConfig) (resp : Response) (d1 : Decoded V),
      client.cache_enabled = true →
      cacheLookup cache (cache_path cfg) = none →
      (requestWithRetry net client.max_retries).outcome = .ok resp →
      decode_response parse resp = .ok d1 →
      (strContains resp.contentType "application/json" = true ∨ parse resp.body = none) →
      (fetch parse client net2 (fetch parse client net cache cfg).cache cfg).outcome
        = .ok d1) := by
  have key : ∀ (V : Type) (parse : String → Option V) (client : HttpClient)
      (net : Nat → NetResult) (cache : List (String × String)) (cfg : RequestConfig)
      (d1 : Decoded V),
      client.cache_enabled = true →
      (fetch parse client net cache cfg).outcome = .ok d1 →
      ∃ bytes, cacheLookup (fetch parse client net cache cfg).cache (cache_path cfg)
        = some bytes := by
    intro V parse client net cache cfg d1 hce h1
    cases hlk : cacheLookup cache (cache_path cfg) with
    | some bytes =>
      rw [fetch_cache_hit parse client net cache cfg bytes hce hlk]
      exact ⟨bytes, hlk⟩
    | none =>
      cases hrr : (requestWithRetry net client.max_retries).outcome with
      | error f =>
        rw [fetch_cache_miss_netfail parse client net cache cfg f hce hlk hrr] at h1
        cases h1
      | ok resp =>
        cases hdec : decode_response parse resp with
        | error u =>
          cases u
          rw [fetch_cache_miss_decodefail parse client net cache cfg resp hce hlk hrr
            hdec] at h1
          cases h1
        | ok d =>
          rw [fetch_cache_miss_ok parse client net cache cfg resp d hce hlk hrr hdec]
          exact ⟨resp.body, cacheWrite_lookup_self _ _ _⟩
  constructor
  · intro V parse client net net2 cache cfg d1 hce h1
    obtain ⟨bytes, hbytes⟩ := key V parse client net cache cfg d1 hce h1
    rw [fetch_cache_hit parse client net2 _ cfg bytes hce hbytes]
    exact ⟨rfl, rfl, bytes, hbytes, rfl⟩
  · intro V parse client net net2 cache cfg resp d1 hce hlk hrr hdec hagree
    have h1 := fetch_cache_miss_ok parse client net cache cfg resp d1 hce hlk hrr hdec
    have hbytes : cacheLookup (fetch parse client net cache cfg).cache (cache_path cfg)
        = some resp.body := by
      rw [h1]
      exact cacheWrite_lookup_self _ _ _
    rw [fetch_cache_hit parse client net2 _ cfg resp.body hce hbytes]
    have : decode_cached parse resp.body = d1 := by
      unfold decode_response at hdec
      by_cases hjson : strContains resp.contentType "application/json" = true
      · rw [if_pos hjson] at hdec
        cases hparse : parse resp.body with
        | none => rw [hparse] at hdec; cases hdec
        | some v =>
          rw [hparse] at hdec
          cases hdec
          unfold decode_cached
          rw [hparse]
      · rw [if_neg hjson] at hdec
        cases hdec
        rcases hagree with hj | hnone
        · exact absurd hj hjson
        · unfold decode_cached
          rw [hnone]
    rw [this]

/-- The `json.loads` oracle for the counterexample: the body "1" parses as
the JSON number 1. -/
def c3parse : String → Option JVal := fun s => if s = "1" then some (.jint 1) else none

def c3client : HttpClient := {}

/-- A server always answering 200 with Content-Type text/html and body "1". -/
def c3net : Nat → NetResult := fun _ => .resp ⟨200, "text/html", "1"⟩

def c3cfg : RequestConfig := { url := "u" }

/-- Claim C3, counterexample: the first fetch decodes by Content-Type
(text/html, so the text "1"), while the second fetch re-decodes the cached
bytes JSON-first and returns the parsed number — the two decoded contents
differ, refuting "the decoded content returned by the second fetch equals the
decoded content returned by the first". -/
theorem C3_counterexample_decode_mismatch :
    (fetch c3parse c3client c3net [] c3cfg).outcome = .ok (.text "1") ∧
    (fetch c3parse c3client c3net ((fetch c3parse c3client c3net [] c3cfg).cache)
      c3cfg).outcome = .ok (.jval (.jint 1)) ∧
    (Decoded.jval (.jint 1) : Decoded JVal) ≠ .text "1" := by
  refine ⟨rfl, rfl, by decide⟩

/-- Witness for C3: at the concrete client/network above the second fetch
issues no network call and does not throttle. -/
theorem C3_cache_second_fetch_witness :
    (fetch c3parse c3client c3net ((fetch c3parse c3client c3net [] c3cfg).cache)
      c3cfg).networkCalls = 0 ∧
    (fetch c3parse c3client c3net ((fetch c3parse c3client c3net [] c3cfg).cache)
      c3cfg).throttled = false := by
  obtain ⟨hn, ht, -⟩ := C3_cache_second_fetch.1 JVal c3parse c3client c3net c3net []
    c3cfg (.text "1") rfl rfl
  exact ⟨hn, ht⟩

/-! ## Claim C5 -/

theorem stepGo_fetches : ∀ (rem : Nat) (page : Nat → Carry → PageDoc) (carry : Carry)
    (attempts : Nat),
    (stepGo page carry attempts rem).fetches.length ≤ rem ∧
    ∀ pr ∈ (stepGo page carry attempts rem).fetches, pr.2 = carry
  | 0, page, carry, attempts => by
    exact ⟨by simp [stepGo], by intro pr hpr; cases hpr⟩
  | rem + 1, page, carry, attempts => by
    unfold stepGo
    by_cases hm : (page attempts carry).hasMarker
    · rw [if_pos hm]
      refine ⟨by simp, ?_⟩
      intro pr hpr
      rcases List.mem_singleton.mp hpr with rfl
      rfl
    · rw [if_neg hm]
      obtain ⟨h1, h2⟩ := stepGo_fetches rem page carry (attempts + 1)
      refine ⟨by simpa using Nat.succ_le_succ h1, ?_⟩
      intro pr hpr
      rcases List.mem_cons.mp hpr with rfl | hpr'
      · rfl
      · exact h2 pr hpr'

theorem stepGo_stall : ∀ (rem : Nat) (page : Nat → Carry → PageDoc) (carry : Carry)
    (attempts : Nat),
    (∀ a, attempts ≤ a → a < attempts + rem → (page a carry).hasMarker = false) →
    (stepGo page carry attempts rem).carry = carry ∧
    (stepGo page carry attempts rem).advancedAt = none ∧
    (stepGo page carry attempts rem).fetches.length = rem
  | 0, page, carry, attempts => by
    intro h
    exact ⟨rfl, rfl, rfl⟩
  | rem + 1, page, carry, attempts => by
    intro h
    unfold stepGo
    rw [if_neg (by simp [h attempts le_rfl (by omega)])]
    obtain ⟨h1, h2, h3⟩ := stepGo_stall rem page carry (attempts + 1)
      (fun a ha1 ha2 => h a (by omega) (by omega))
    exact ⟨h1, h2, by simpa using h3⟩

theorem stepGo_advance : ∀ (rem : Nat) (page : Nat → Carry → PageDoc) (carry : Carry)
    (attempts a : Nat),
    (stepGo page carry attempts rem).advancedAt = some a →
    attempts ≤ a ∧ (page a carry).hasMarker = true ∧
    (∀ a2, attempts ≤ a2 → a2 < a → (page a2 carry).hasMarker = false) ∧
    (stepGo page carry attempts rem).carry
      = { parse_hidden_params (page a carry) with result := "0" }
  | 0, page, carry, attempts, a => by
    intro h
    cases h
  | rem + 1, page, carry, attempts, a => by
    intro h
    unfold stepGo at h ⊢
    by_cases hm : (page attempts carry).hasMarker
    · rw [if_pos hm] at h ⊢
      simp only at h
      cases h
      exact ⟨le_rfl, hm, fun a2 h1 h2 => absurd h1 (by omega), rfl⟩
    · rw [if_neg hm] at h ⊢
      simp only at h
      obtain ⟨ha1, ha2, ha3, ha4⟩ := stepGo_advance rem page carry (attempts + 1) a h
      refine ⟨by omega, ha2, ?_, ha4⟩
      intro a2 h1 h2
      by_cases he : a2 = attempts
      · subst he
        simpa using hm
      · exact ha3 a2 (by omega) h2

/-- Claim C5 as amended. Per step and whatever the incoming carry set:
(1) at most 3 requests are issued, all reusing the same carry set;
(2) if every attempt stalls (no next-step marker), the step issues exactly 3
requests and the carry set is left unchanged, with nothing extracted;
(3) if some attempt finds the marker, it is the first such attempt, and the
carry set left for the next step is the hidden params extracted from that
response with the `result` token FORCED to "0" (not the extracted result
value — that is the corrected part of the claim);
(4) the session loop always walks all `max_qno` steps (a stalled step never
aborts the walk), and (5) the outgoing carry of each step feeds the next step. -/
theorem C5_stall_recovery :
    (∀ (page : Nat → Carry → PageDoc) (carry : Carry),
      (runStep page carry).fetches.length ≤ 3 ∧
      ∀ pr ∈ (runStep page carry).fetches, pr.2 = carry) ∧
    (∀ (page : Nat → Carry → PageDoc) (carry : Carry),
      (∀ a, a < 3 → (page a carry).hasMarker = false) →
      (runStep page carry).carry = carry ∧ (runStep page carry).advancedAt = none ∧
      (runStep page carry).fetches.length = 3) ∧
    (∀ (page : Nat → Carry → PageDoc) (carry : Carry) (a : Nat),
      (runStep page carry).advancedAt = some a →
      (page a carry).hasMarker = true ∧
      (∀ a2, a2 < a → (page a2 carry).hasMarker = false) ∧
      (runStep page carry).carry
        = { parse_hidden_params (page a carry) with result := "0" }) ∧
    (∀ (pages : Nat → Nat → Carry → PageDoc) (maxQno : Nat),
      (scrape_session_walk pages maxQno).length = maxQno) ∧
    (∀ (pages : Nat → Nat → Carry → PageDoc) (idx : Nat) (carry : Carry) (n : Nat),
      walkFrom pages idx carry (n + 1)
        = runStep (pages idx) carry
            :: walkFrom pages (idx + 1) (runStep (pages idx) carry).carry n) := by
  have hlen : ∀ (pages : Nat → Nat → Carry → PageDoc) (n idx : Nat) (carry : Carry),
      (walkFrom pages idx carry n).length = n := by
    intro pages n
    induction n with
    | zero => intro idx carry; rfl
    | succ n ih =>
      intro idx carry
      unfold walkFrom
      simp [ih]
  refine ⟨fun page carry => stepGo_fetches 3 page carry 0, ?_, ?_, ?_, ?_⟩
  · intro page carry h
    exact stepGo_stall 3 page carry 0 (fun a h1 h2 => h a (by omega))
  · intro page carry a h
    obtain ⟨-, h2, h3, h4⟩ := stepGo_advance 3 page carry 0 a h
    exact ⟨h2, fun a2 ha2 => h3 a2 (Nat.zero_le _) ha2, h4⟩
  · intro pages maxQno
    exact hlen pages maxQno 0 ⟨"", "", "", "0"⟩
  · intro pages idx carry n
    rfl

/-- An oracle whose responses always advance and always echo result "5". -/
def c5page : Nat → Carry → PageDoc := fun _ _ =>
  { hasMarker := true, hq := some "Q", hr := some "R", hc := some "C", hres := some "5" }

/-- Claim C5, counterexample: on a successful attempt the carry set used for
the next step is NOT the one extracted from the response: the extracted
result token is "5", but the walker forces `result_value = "0"` before
reusing it, so the carry set used for the next step differs from the extracted carry
set. -/
theorem C5_counterexample_result_forced :
    (runStep c5page ⟨"", "", "", "0"⟩).advancedAt = some 0 ∧
    parse_hidden_params (c5page 0 ⟨"", "", "", "0"⟩) = ⟨"Q", "R", "C", "5"⟩ ∧
    (runStep c5page ⟨"", "", "", "0"⟩).carry = ⟨"Q", "R", "C", "0"⟩ ∧
    (runStep c5page ⟨"", "", "", "0"⟩).carry
      ≠ parse_hidden_params (c5page 0 ⟨"", "", "", "0"⟩) := by
  refine ⟨rfl, rfl, rfl, by decide⟩

/-- An oracle that stalls on attempts 0 and 1 and advances on attempt 2. -/
def c5pageW : Nat → Carry → PageDoc := fun a _ =>
  if a = 2 then { hasMarker := true, hq := some "q2", hres := some "0" }
  else { hasMarker := false }

/-- Witness for C5: two stalls then an advance on the third attempt ends the
step with the carry extracted from the third response (result forced "0"),
and the two earlier attempts indeed stalled. -/
theorem C5_stall_recovery_witness :
    (runStep c5pageW ⟨"", "", "", "0"⟩).carry = ⟨"q2", "", "", "0"⟩ ∧
    (c5pageW 0 ⟨"", "", "", "0"⟩).hasMarker = false ∧
    (c5pageW 1 ⟨"", "", "", "0"⟩).hasMarker = false := by
  obtain ⟨h1, h2, h3⟩ := C5_stall_recovery.2.2.1 c5pageW ⟨"", "", "", "0"⟩ 2 rfl
  refine ⟨?_, h2 0 (by omega), h2 1 (by omega)⟩
  rw [h3]
  rfl
